import Mathlib

/-!
# GDCore `gd::Project` (PlatformDefinition/Project.cpp)

A shallow embedding of the member functions defined in `Project.cpp`:
`ExposeResources`, `PopulatePropertyGrid`, `UpdateFromPropertyGrid`,
`SaveToFile`, `LoadFromFile` and `ValidateObjectName`, followed by theorems
about them.

Conventions of the embedding
* `std::string` is a Lean `String`, one `Char` per `char`; `std::vector` is a
  `List`; a `std::map` is a list of key/value pairs (only its keys are ever
  read here).
* A C++ loop `for (i = 0; i < v.size(); ++i)` over a vector is a structural
  recursion over the list, carrying the mutated state explicitly; a member
  function that changes its object returns the changed object.
* Classes declared in headers that are not part of `Project.cpp`
  (`Platform`, `PlatformExtension`, `ResourcesManager`, `Layout`, `Object`, ...)
  are records holding exactly what `Project.cpp` reads from them.
* The libraries (`std::string`, wxWidgets' property grid, TinyXML) are
  modelled by what the calls made in `Project.cpp` do.
-/

namespace gd

/-! ## Platform metadata, as queried by `ValidateObjectName` -/

/-- Modelled from the spec: `ExpressionMetadata.h` is not part of the sources;
the metadata of one expression. `Project.cpp` only reads the key under which
it is stored, never its content. -/
structure ExpressionMetadata where
  fullname : String

/-- Modelled from the spec: `InstructionsMetadataHolder.h` is not part of the
sources; the holder is the platform's registry of global expressions and
string-expressions, queried by name. -/
structure InstructionsMetadataHolder where
  HasExpression : String → Bool
  HasStrExpression : String → Bool

/-- Modelled from the spec: `PlatformExtension.h` is not part of the sources;
an extension has a name, the object types it defines and, per object type, a
map from expression name to metadata. -/
structure PlatformExtension where
  GetName : String
  GetExtensionObjectsTypes : List String
  GetAllExpressionsForObject : String → List (String × ExpressionMetadata)

/-- Modelled from the spec: `Platform.h` is not part of the sources; a platform
owns the list of loaded extensions and the instructions metadata holder. -/
structure Platform where
  GetAllPlatformExtensions : List PlatformExtension
  GetInstructionsMetadataHolder : InstructionsMetadataHolder

/-- The outcome of `std::string::find_first_not_of(allowed)` scanning from
position `i`: the index of the first character that is not in `allowed`, or
`none` for `std::string::npos`. -/
def find_first_not_of_from (allowed : List Char) : List Char → Nat → Option Nat
  | [], _ => none
  | c :: cs, i => if allowed.contains c then find_first_not_of_from allowed cs (i + 1) else some i

/-- The call `s.find_first_not_of(allowed)` of `std::string`. -/
def find_first_not_of (s allowed : String) : Option Nat :=
  find_first_not_of_from allowed.data s.data 0

/-- The local `allowedCharacter` of `ValidateObjectName`. -/
def allowedCharacter : String :=
  "abcdefghijklmnopqrstuvwxyzABCDEFGHIJKLMNOPQRSTUVWXYZ0123456789_"

/-- The innermost loop of `ValidateObjectName`, over the entries of
`allObjExpr`: `if (name == it->first) nameUsedByExpression = true;`. -/
def scanExpressions (name : String) :
    List (String × ExpressionMetadata) → Bool → Bool
  | [], nameUsedByExpression => nameUsedByExpression
  | it :: rest, nameUsedByExpression =>
      scanExpressions name rest (if name == it.1 then true else nameUsedByExpression)

/-- The loop over `objectsTypes` (index `j`) of `ValidateObjectName`. -/
def scanObjectsTypes (name : String) (ext : PlatformExtension) :
    List String → Bool → Bool
  | [], nameUsedByExpression => nameUsedByExpression
  | objectType :: rest, nameUsedByExpression =>
      scanObjectsTypes name ext rest
        (scanExpressions name (ext.GetAllExpressionsForObject objectType) nameUsedByExpression)

/-- The loop over `extensions` (index `i`) of `ValidateObjectName`; an
extension whose name `std::find` does not find in the used-extensions list is
skipped by `continue`. -/
def scanExtensions (name : String) (usedPlatformExtensions : List String) :
    List PlatformExtension → Bool → Bool
  | [], nameUsedByExpression => nameUsedByExpression
  | ext :: rest, nameUsedByExpression =>
      if usedPlatformExtensions.contains ext.GetName then
        scanExtensions name usedPlatformExtensions rest
          (scanObjectsTypes name ext ext.GetExtensionObjectsTypes nameUsedByExpression)
      else
        scanExtensions name usedPlatformExtensions rest nameUsedByExpression

/-! ## Resources, objects, events, layouts -/

/-- Modelled from the spec: `ResourcesManager.h` is not part of the sources; a
resource has a name (its key in the registry), a flag telling whether it uses
a file (`UseFile()`), and a file path (`GetFile()`), meaningful only if the
flag is set. -/
structure Resource where
  name : String
  useFile : Bool
  file : String
deriving DecidableEq

/-- The resource returned by a lookup that finds nothing; it uses no file.
`ExposeResources` only looks up names taken from the registry itself. -/
def badResource : Resource := { name := "", useFile := false, file := "" }

/-- Modelled from the spec: `ResourcesManager.h` is not part of the sources;
the registry is the sequence of its resources, looked up by name. -/
structure ResourcesManager where
  resources : List Resource
deriving DecidableEq

/-- The names of all the resources, in registry order
(`ResourcesManager::GetAllResourcesList`). -/
def ResourcesManager.GetAllResourcesList (self : ResourcesManager) : List String :=
  self.resources.map (fun r => r.name)

/-- The resource registered under a name, the first one in registry order
(`ResourcesManager::GetResource`). -/
def ResourcesManager.GetResource (self : ResourcesManager) (name : String) : Resource :=
  match self.resources.find? (fun r => r.name == name) with
  | some r => r
  | none => badResource

/-- Storing `file` through the reference `GetResource(name).GetFile()`, in a
list of resources: the first resource called `name` receives the new path. -/
def storeFile (name file : String) : List Resource → List Resource
  | [] => []
  | r :: rs =>
      if r.name == name then { r with file := file } :: rs
      else r :: storeFile name file rs

/-- Storing `file` through the reference `GetResource(name).GetFile()`. -/
def ResourcesManager.SetFile (self : ResourcesManager) (name file : String) :
    ResourcesManager :=
  { resources := storeFile name file self.resources }

/-- Modelled from the spec: `Object.h` is not part of the sources; an object
carries the resource references embedded in its configuration, in the order
in which its `ExposeResources` reports them. -/
structure Object where
  name : String
  resources : List String
deriving DecidableEq

/-- Modelled from the spec: the event classes are not part of the sources and
the spec treats an event tree as opaque beyond the resource references it
produces when visited; `resources` are the references held by the
instructions and expressions of every event and sub-event, in the order in
which the resource worker on events reports them. -/
structure Events where
  resources : List String
deriving DecidableEq

/-- Modelled from the spec: `Layout.h` is not part of the sources; a layout
owns an ordered sequence of objects and an event tree. -/
structure Layout where
  name : String
  objects : List Object
  events : Events
deriving DecidableEq

/-- Modelled from the spec: `ExternalEvents.h` is not part of the sources; an
external event sheet owns an event tree. -/
structure ExternalEvents where
  name : String
  events : Events
deriving DecidableEq

/-! ## The project -/

/-- Modelled from the spec: `Project.h` is not part of the sources; the fields
are those that `Project.cpp` reads or writes through the accessors of
`gd::Project`. The window sizes and the minimum FPS are unsigned, the maximum
FPS is signed with `-1` meaning unlimited. -/
structure Project where
  name : String
  author : String
  mainWindowDefaultWidth : Nat
  mainWindowDefaultHeight : Nat
  verticalSynchronizationEnabledByDefault : Bool
  maximumFPS : Int
  minimumFPS : Nat
  globalVariables : List (String × String)
  usedPlatformExtensions : List String
  resourcesManager : ResourcesManager
  layouts : List Layout
  externalEvents : List ExternalEvents
  objects : List Object
  platform : Platform
  projectFile : String

/-- The body of `Project::ValidateObjectName`. -/
def Project.ValidateObjectName (self : Project) (name : String) : Bool :=
  let extensions := self.platform.GetAllPlatformExtensions
  let nameUsedByExpression :=
    self.platform.GetInstructionsMetadataHolder.HasExpression name ||
      self.platform.GetInstructionsMetadataHolder.HasStrExpression name
  let nameUsedByExpression :=
    scanExtensions name self.usedPlatformExtensions extensions nameUsedByExpression
  !((find_first_not_of name allowedCharacter != none) || nameUsedByExpression)

/-! ## `ExposeResources` -/

/-- Modelled from the spec: `ArbitraryResourceWorker.h` is not part of the
sources; a visitor has a state of type `σ` and one callback, `ExposeResource`,
which receives a path and gives back the possibly rewritten path. In the
C++ the path is passed by reference, so the path given back is stored where
the path came from. -/
structure ArbitraryResourceWorker (σ : Type) where
  ExposeResource : σ → String → σ × String

/-- The state of a traversal: the state of the visitor and the paths it has
been called with so far, oldest first. -/
structure Exposure (σ : Type) where
  state : σ
  visits : List String

/-- One call `worker.ExposeResource(path)`: the rewritten path and the
traversal state after the call. -/
def ArbitraryResourceWorker.call {σ : Type} (worker : ArbitraryResourceWorker σ)
    (e : Exposure σ) (path : String) : String × Exposure σ :=
  let r := worker.ExposeResource e.state path
  (r.2, { state := r.1, visits := e.visits ++ [path] })

/-- The visitor applied in order to a sequence of embedded references, each
one replaced by what the visitor gives back. -/
def exposeReferences {σ : Type} (worker : ArbitraryResourceWorker σ) :
    List String → Exposure σ → List String × Exposure σ
  | [], e => ([], e)
  | path :: rest, e =>
      let r := worker.call e path
      let rs := exposeReferences worker rest r.2
      (r.1 :: rs.1, rs.2)

/-- Modelled from the spec: `Object::ExposeResources(worker)`, which reports
the object's own embedded references to the visitor. -/
def Object.ExposeResources {σ : Type} (self : Object) (worker : ArbitraryResourceWorker σ)
    (e : Exposure σ) : Object × Exposure σ :=
  let r := exposeReferences worker self.resources e
  ({ self with resources := r.1 }, r.2)

/-- Modelled from the spec: `LaunchResourceWorkerOnEvents(project, events,
worker)`, which applies the visitor to every resource-bearing element of an
event tree. The project argument is only read by it and is left out. -/
def LaunchResourceWorkerOnEvents {σ : Type} (events : Events)
    (worker : ArbitraryResourceWorker σ) (e : Exposure σ) : Events × Exposure σ :=
  let r := exposeReferences worker events.resources e
  ({ resources := r.1 }, r.2)

/-- The first loop of `Project::ExposeResources`, over the copy `resources` of
the list of names: a resource that uses a file has its file passed to the
visitor by reference. -/
def exposeProjectResources {σ : Type} (worker : ArbitraryResourceWorker σ) :
    List String → ResourcesManager → Exposure σ → ResourcesManager × Exposure σ
  | [], manager, e => (manager, e)
  | resource :: rest, manager, e =>
      if (manager.GetResource resource).useFile then
        let r := worker.call e (manager.GetResource resource).file
        exposeProjectResources worker rest (manager.SetFile resource r.1) r.2
      else
        exposeProjectResources worker rest manager e

/-- A loop `for (j = 0; j < GetObjectsCount(); ++j)
GetObject(j).ExposeResources(worker);` over a sequence of objects. -/
def exposeObjects {σ : Type} (worker : ArbitraryResourceWorker σ) :
    List Object → Exposure σ → List Object × Exposure σ
  | [], e => ([], e)
  | object :: rest, e =>
      let r := object.ExposeResources worker e
      let rs := exposeObjects worker rest r.2
      (r.1 :: rs.1, rs.2)

/-- The loop of `Project::ExposeResources` over the layouts (index `s`): the
objects of the layout, then its events. -/
def exposeLayouts {σ : Type} (worker : ArbitraryResourceWorker σ) :
    List Layout → Exposure σ → List Layout × Exposure σ
  | [], e => ([], e)
  | layout :: rest, e =>
      let objs := exposeObjects worker layout.objects e
      let evts := LaunchResourceWorkerOnEvents layout.events worker objs.2
      let rs := exposeLayouts worker rest evts.2
      ({ layout with objects := objs.1, events := evts.1 } :: rs.1, rs.2)

/-- The loop of `Project::ExposeResources` over the external events. -/
def exposeExternalEvents {σ : Type} (worker : ArbitraryResourceWorker σ) :
    List ExternalEvents → Exposure σ → List ExternalEvents × Exposure σ
  | [], e => ([], e)
  | externalEvents :: rest, e =>
      let evts := LaunchResourceWorkerOnEvents externalEvents.events worker e
      let rs := exposeExternalEvents worker rest evts.2
      ({ externalEvents with events := evts.1 } :: rs.1, rs.2)

/-- The body of `Project::ExposeResources`: project resources, layouts,
external events, global objects. The calls to `wxSafeYield()` between the
phases only hand control to the user interface and are left out. -/
def Project.ExposeResources {σ : Type} (self : Project) (worker : ArbitraryResourceWorker σ)
    (e : Exposure σ) : Project × Exposure σ :=
  let resources := self.resourcesManager.GetAllResourcesList
  let r1 := exposeProjectResources worker resources self.resourcesManager e
  let r2 := exposeLayouts worker self.layouts r1.2
  let r3 := exposeExternalEvents worker self.externalEvents r2.2
  let r4 := exposeObjects worker self.objects r3.2
  ({ self with resourcesManager := r1.1, layouts := r2.1, externalEvents := r3.1,
               objects := r4.1 }, r4.2)

/-! ## The property grid -/

/-- A value converted to a C `long` of `longBits` bits (two's complement). -/
def toLong (longBits : Nat) (x : Int) : Int :=
  (x + 2 ^ (longBits - 1)) % 2 ^ longBits - 2 ^ (longBits - 1)

/-- A value converted to a 32-bit `unsigned int`. -/
def toUnsignedInt (x : Int) : Nat := (x % 2 ^ 32).toNat

/-- A value converted to a 32-bit `int` (two's complement). -/
def toInt (x : Int) : Int := (x + 2 ^ 31) % 2 ^ 32 - 2 ^ 31

/-- The values a property of the grid holds (`wxVariant`). -/
inductive wxVariant where
  | null
  | string (s : String)
  | long (n : Int)
  | bool (b : Bool)
deriving DecidableEq

/-- The conversion `wxVariant::GetInteger`. -/
def wxVariant.GetInteger : wxVariant → Int
  | .long n => n
  | .bool b => if b then 1 else 0
  | .string s => s.toInt?.getD 0
  | .null => 0

/-- The conversion `wxVariant::GetBool`. -/
def wxVariant.GetBool : wxVariant → Bool
  | .bool b => b
  | .long n => n != 0
  | .string s => s.toLower == "true" || s.toLower == "yes" || s == "1"
  | .null => false

/-- The class of a property of the grid. -/
inductive wxPGKind where
  | wxPropertyCategory
  | wxStringProperty
  | wxUIntProperty
  | wxIntProperty
  | wxBoolProperty
deriving DecidableEq

/-- A property of the grid: its name (with `wxPG_LABEL` the name is the
label), its class, its value, whether it is enabled, whether it is read-only
and the text put in its second column by `SetPropertyCell`, if any. -/
structure wxPGProperty where
  name : String
  kind : wxPGKind
  value : wxVariant
  enabled : Bool
  readOnly : Bool
  cell : Option String
deriving DecidableEq

/-- The text of a property's value (`wxPGProperty::GetValueAsString`). -/
def wxPGProperty.GetValueAsString (self : wxPGProperty) : String :=
  match self.value with
  | .string s => s
  | .long n => toString n
  | .bool b => if b then "True" else "False"
  | .null => ""

/-- The call `new wxPropertyCategory(label)`. -/
def new_wxPropertyCategory (label : String) : wxPGProperty :=
  { name := label, kind := .wxPropertyCategory, value := .null, enabled := true,
    readOnly := false, cell := none }

/-- The call `new wxStringProperty(label, wxPG_LABEL, value)`. -/
def new_wxStringProperty (label value : String) : wxPGProperty :=
  { name := label, kind := .wxStringProperty, value := .string value, enabled := true,
    readOnly := false, cell := none }

/-- The call `new wxUIntProperty(label, wxPG_LABEL, value)`: the unsigned value
is kept in the variant as a `long`. -/
def new_wxUIntProperty (longBits : Nat) (label : String) (value : Nat) : wxPGProperty :=
  { name := label, kind := .wxUIntProperty, value := .long (toLong longBits value),
    enabled := true, readOnly := false, cell := none }

/-- The call `new wxIntProperty(label, wxPG_LABEL, value)`. -/
def new_wxIntProperty (longBits : Nat) (label : String) (value : Int) : wxPGProperty :=
  { name := label, kind := .wxIntProperty, value := .long (toLong longBits value),
    enabled := true, readOnly := false, cell := none }

/-- The call `new wxBoolProperty(label, wxPG_LABEL, value)`. -/
def new_wxBoolProperty (label : String) (value : Bool) : wxPGProperty :=
  { name := label, kind := .wxBoolProperty, value := .bool value, enabled := true,
    readOnly := false, cell := none }

/-- A property grid: its properties in the order in which they were appended. -/
structure wxPropertyGrid where
  properties : List wxPGProperty
deriving DecidableEq

/-- The call `grid->Append(property)`. -/
def wxPropertyGrid.Append (grid : wxPropertyGrid) (property : wxPGProperty) : wxPropertyGrid :=
  { properties := grid.properties ++ [property] }

/-- The call `grid->GetProperty(name)`; `none` is `NULL`. -/
def wxPropertyGrid.GetProperty (grid : wxPropertyGrid) (name : String) : Option wxPGProperty :=
  grid.properties.find? (fun property => property.name == name)

/-- A change made to the property called `name`, in a list of properties. -/
def changeProperty (name : String) (f : wxPGProperty → wxPGProperty) :
    List wxPGProperty → List wxPGProperty
  | [] => []
  | property :: rest =>
      if property.name == name then f property :: rest
      else property :: changeProperty name f rest

/-- The call `grid->SetPropertyCell(name, 1, text, ...)`. -/
def wxPropertyGrid.SetPropertyCell (grid : wxPropertyGrid) (name text : String) : wxPropertyGrid :=
  { properties := changeProperty name (fun property => { property with cell := some text })
      grid.properties }

/-- The call `grid->SetPropertyReadOnly(name)`. -/
def wxPropertyGrid.SetPropertyReadOnly (grid : wxPropertyGrid) (name : String) : wxPropertyGrid :=
  { properties := changeProperty name (fun property => { property with readOnly := true })
      grid.properties }

/-- The call `grid->GetProperty(name)->Enable(enable)`. -/
def wxPropertyGrid.Enable (grid : wxPropertyGrid) (name : String) (enable : Bool) : wxPropertyGrid :=
  { properties := changeProperty name (fun property => { property with enabled := enable })
      grid.properties }

/-- The call `grid->GetProperty(name)->SetValue(value)`. -/
def wxPropertyGrid.SetValue (grid : wxPropertyGrid) (name : String) (value : wxVariant) :
    wxPropertyGrid :=
  { properties := changeProperty name (fun property => { property with value := value })
      grid.properties }

/-- An empty property grid. -/
def wxPropertyGrid.empty : wxPropertyGrid := { properties := [] }

/-- The setter `SetName`. -/
def Project.SetName (self : Project) (name : String) : Project := { self with name := name }

/-- The setter `SetAuthor`. -/
def Project.SetAuthor (self : Project) (author : String) : Project := { self with author := author }

/-- The setter `SetMainWindowDefaultWidth(unsigned int)`. -/
def Project.SetMainWindowDefaultWidth (self : Project) (width : Int) : Project :=
  { self with mainWindowDefaultWidth := toUnsignedInt width }

/-- The setter `SetMainWindowDefaultHeight(unsigned int)`. -/
def Project.SetMainWindowDefaultHeight (self : Project) (height : Int) : Project :=
  { self with mainWindowDefaultHeight := toUnsignedInt height }

/-- The setter `SetVerticalSyncActivatedByDefault`. -/
def Project.SetVerticalSyncActivatedByDefault (self : Project) (enable : Bool) : Project :=
  { self with verticalSynchronizationEnabledByDefault := enable }

/-- The setter `SetMaximumFPS(int)`. -/
def Project.SetMaximumFPS (self : Project) (maxFPS : Int) : Project :=
  { self with maximumFPS := toInt maxFPS }

/-- The setter `SetMinimumFPS(unsigned int)`. -/
def Project.SetMinimumFPS (self : Project) (minFPS : Int) : Project :=
  { self with minimumFPS := toUnsignedInt minFPS }

/-- The setter `SetProjectFile`. -/
def Project.SetProjectFile (self : Project) (file : String) : Project :=
  { self with projectFile := file }

/-- The body of `Project::PopulatePropertyGrid`. The labels are the English
texts given to the translation function; the bitmap and the colour given to
`SetPropertyCell` are not kept. The conversion from `std::string` to
`wxString` keeps the text as it is. -/
def Project.PopulatePropertyGrid (self : Project) (longBits : Nat) (grid : wxPropertyGrid) :
    wxPropertyGrid :=
  let grid := grid.Append (new_wxPropertyCategory "Properties")
  let grid := grid.Append (new_wxStringProperty "Name of the project" self.name)
  let grid := grid.Append (new_wxStringProperty "Author" self.author)
  let grid := grid.Append (new_wxStringProperty "Globals variables" "Click to edit...")
  let grid := grid.Append (new_wxStringProperty "Extensions" "Click to edit...")
  let grid := grid.Append (new_wxPropertyCategory "Game's window")
  let grid := grid.Append (new_wxUIntProperty longBits "Width" self.mainWindowDefaultWidth)
  let grid := grid.Append (new_wxUIntProperty longBits "Height" self.mainWindowDefaultHeight)
  let grid := grid.Append (new_wxBoolProperty "Vertical Synchronization"
    self.verticalSynchronizationEnabledByDefault)
  let grid := grid.Append (new_wxBoolProperty "Limit the framerate" (self.maximumFPS != -1))
  let grid := grid.Append (new_wxIntProperty longBits "Maximum FPS" self.maximumFPS)
  let grid := grid.Append (new_wxUIntProperty longBits "Minimum FPS" self.minimumFPS)
  let grid := grid.SetPropertyCell "Globals variables" "Click to edit..."
  let grid := grid.SetPropertyReadOnly "Globals variables"
  let grid := grid.SetPropertyCell "Extensions" "Click to edit..."
  let grid := grid.SetPropertyReadOnly "Extensions"
  if self.maximumFPS == -1 then
    let grid := grid.Enable "Maximum FPS" false
    grid.SetValue "Maximum FPS" (.string "")
  else
    grid.Enable "Maximum FPS" true

/-- The two branches of `Project::UpdateFromPropertyGrid` that set the maximum
FPS. -/
def Project.updateMaximumFPS (self : Project) (grid : wxPropertyGrid) : Project :=
  let unlimited :=
    match grid.GetProperty "Limit the framerate" with
    | some property => !property.value.GetBool
    | none => false
  if unlimited then self.SetMaximumFPS (-1)
  else
    match grid.GetProperty "Maximum FPS" with
    | some property => self.SetMaximumFPS property.value.GetInteger
    | none => self

/-- The body of `Project::UpdateFromPropertyGrid`. The conversion
`gd::ToString` from `wxString` to `std::string` keeps the text as it is. -/
def Project.UpdateFromPropertyGrid (self : Project) (grid : wxPropertyGrid) : Project :=
  let self :=
    match grid.GetProperty "Name of the project" with
    | some property => self.SetName property.GetValueAsString
    | none => self
  let self :=
    match grid.GetProperty "Author" with
    | some property => self.SetAuthor property.GetValueAsString
    | none => self
  let self :=
    match grid.GetProperty "Width" with
    | some property => self.SetMainWindowDefaultWidth property.value.GetInteger
    | none => self
  let self :=
    match grid.GetProperty "Height" with
    | some property => self.SetMainWindowDefaultHeight property.value.GetInteger
    | none => self
  let self :=
    match grid.GetProperty "Vertical Synchronization" with
    | some property => self.SetVerticalSyncActivatedByDefault property.value.GetBool
    | none => self
  let self := self.updateMaximumFPS grid
  match grid.GetProperty "Minimum FPS" with
  | some property => self.SetMinimumFPS property.value.GetInteger
  | none => self

/-- The numeric fields of a project lie in the ranges of their C++ types:
`unsigned int` for the window sizes and the minimum FPS, `int` for the maximum
FPS. -/
def Project.InRange (self : Project) : Prop :=
  self.mainWindowDefaultWidth < 2 ^ 32 ∧ self.mainWindowDefaultHeight < 2 ^ 32 ∧
    self.minimumFPS < 2 ^ 32 ∧ -2 ^ 31 ≤ self.maximumFPS ∧ self.maximumFPS < 2 ^ 31

/-! ## TinyXML documents and files -/

/-- An element of a TinyXML document: its value (the tag), its attributes in
order and its child elements in order. -/
inductive TiXmlElement where
  | mk (value : String) (attributes : List (String × String)) (children : List TiXmlElement)

/-- The tag of an element (`TiXmlElement::Value`). -/
def TiXmlElement.Value : TiXmlElement → String
  | .mk value _ _ => value

/-- The attributes of an element. -/
def TiXmlElement.attributes : TiXmlElement → List (String × String)
  | .mk _ attributes _ => attributes

/-- The child elements of an element. -/
def TiXmlElement.children : TiXmlElement → List TiXmlElement
  | .mk _ _ children => children

/-- The call `new TiXmlElement(value)`. -/
def new_TiXmlElement (value : String) : TiXmlElement := .mk value [] []

/-- The value of an attribute, `none` for `NULL` (`TiXmlElement::Attribute`). -/
def TiXmlElement.Attribute (self : TiXmlElement) (name : String) : Option String :=
  self.attributes.lookup name

/-- An attribute set in a list of attributes: replaced where it is, or added
at the end. -/
def setAttribute (name value : String) : List (String × String) → List (String × String)
  | [] => [(name, value)]
  | a :: rest => if a.1 == name then (name, value) :: rest else a :: setAttribute name value rest

/-- The call `element->SetAttribute(name, value)`. -/
def TiXmlElement.SetAttribute (self : TiXmlElement) (name value : String) : TiXmlElement :=
  .mk self.Value (setAttribute name value self.attributes) self.children

/-- The call `element->LinkEndChild(child)`. -/
def TiXmlElement.LinkEndChild (self child : TiXmlElement) : TiXmlElement :=
  .mk self.Value self.attributes (self.children ++ [child])

/-- The first child element with a given tag, `none` for `NULL`
(`TiXmlElement::FirstChildElement(name)`). -/
def TiXmlElement.FirstChildElement (self : TiXmlElement) (name : String) : Option TiXmlElement :=
  self.children.find? (fun child => child.Value == name)

/-- A node linked under a document: a declaration or an element. -/
inductive TiXmlNode where
  | declaration (version encoding standalone : String)
  | element (e : TiXmlElement)

/-- A TinyXML document: the nodes linked under it, in order. -/
structure TiXmlDocument where
  children : List TiXmlNode

/-- The call `doc.LinkEndChild(node)`. -/
def TiXmlDocument.LinkEndChild (self : TiXmlDocument) (node : TiXmlNode) : TiXmlDocument :=
  { children := self.children ++ [node] }

/-- The first element among a list of nodes. -/
def firstElement : List TiXmlNode → Option TiXmlElement
  | [] => none
  | .declaration _ _ _ :: rest => firstElement rest
  | .element e :: _ => some e

/-- The element `TiXmlHandle(&doc).FirstChildElement().Element()`: the first
child of the document that is an element, `none` for `NULL`. -/
def TiXmlDocument.FirstChildElement (self : TiXmlDocument) : Option TiXmlElement :=
  firstElement self.children

/-- The files, as TinyXML sees them: `LoadFile` gives for a path the document
kept there or, when the file is missing or does not parse, the error
description; `writable` tells whether a file can be written at a path. The
writer and the parser of TinyXML are taken to be inverse of each other: a
document written at a path is the document loaded from it. -/
structure FileSystem where
  LoadFile : String → Except String TiXmlDocument
  writable : String → Bool

/-- The call `doc.SaveFile(path)`: the value returned and the files after it. -/
def FileSystem.SaveFile (self : FileSystem) (path : String) (doc : TiXmlDocument) :
    Bool × FileSystem :=
  if self.writable path then
    (true, { self with LoadFile := fun p => if p == path then .ok doc else self.LoadFile p })
  else (false, self)

/-! ## `SaveToFile` and `LoadFromFile` -/

/-- What a call of `SaveToFile` does: the value returned, the files after the
call and the messages given to `wxLogError`. -/
structure SaveOutcome where
  returned : Bool
  files : FileSystem
  logged : List String

/-- The body of `Project::SaveToFile`. `SaveToXml` is declared by `gd::Project`
and implemented outside `Project.cpp`; it is a parameter. The root element is
linked under the document before `SaveToXml` fills it through the pointer;
here it is filled, then linked. -/
def Project.SaveToFile (self : Project) (fs : FileSystem)
    (SaveToXml : Project → TiXmlElement → TiXmlElement) (filename : String) : SaveOutcome :=
  let doc : TiXmlDocument := { children := [] }
  let decl := TiXmlNode.declaration "1.0" "ISO-8859-1" ""
  let doc := doc.LinkEndChild decl
  let root := new_TiXmlElement "Project"
  let root := SaveToXml self root
  let doc := doc.LinkEndChild (.element root)
  let saved := fs.SaveFile filename doc
  if !saved.1 then
    let error := "Unable to save file to " ++ filename ++
      "\nCheck that the drive has enough free space, is not write-protected and that you have read/write permissions."
    { returned := false, files := saved.2, logged := [error] }
  else
    { returned := true, files := saved.2, logged := [] }

/-- What a call of `LoadFromFile` does: the value returned, the project after
the call, the messages given to `wxLogError`, and the arguments of the calls
made to `LoadFromXml`. -/
structure LoadOutcome where
  returned : Bool
  project : Project
  logged : List String
  loadFromXmlCalls : List (Option TiXmlElement)

/-- The body of `Project::LoadFromFile`. `LoadFromXml` is declared by
`gd::Project` and implemented outside `Project.cpp`; it is a parameter. -/
def Project.LoadFromFile (self : Project) (fs : FileSystem)
    (LoadFromXml : Project → Option TiXmlElement → Project) (filename : String) : LoadOutcome :=
  match fs.LoadFile filename with
  | .error errorTinyXmlDesc =>
      let error := "Error while loading :" ++ "\n" ++ errorTinyXmlDesc ++ "\n\n" ++
        "Make sure the file exists and that you have the right to open the file."
      { returned := false, project := self, logged := [error], loadFromXmlCalls := [] }
  | .ok doc =>
      let self := self.SetProjectFile filename
      let self := LoadFromXml self doc.FirstChildElement
      { returned := true, project := self, logged := [],
        loadFromXmlCalls := [doc.FirstChildElement] }

/-! ## The document format -/

/-- The decimal text of a natural number, as written in an attribute. -/
def printNat (n : Nat) : String :=
  if n = 0 then "0" else String.mk ((Nat.digits 10 n).reverse.map Nat.digitChar)

/-- The value of a decimal digit. -/
def digitValue (c : Char) : Nat := c.toNat - '0'.toNat

/-- The natural number a decimal text stands for, if it is one. -/
def parseNat (s : String) : Option Nat :=
  if s.data ≠ [] ∧ s.data.all Char.isDigit = true then
    some (Nat.ofDigits 10 (s.data.reverse.map digitValue))
  else none

/-- The decimal text of an integer, as written in an attribute. -/
def printInt (m : Int) : String :=
  if m < 0 then String.mk ('-' :: (printNat m.natAbs).data) else printNat m.natAbs

/-- The integer a decimal text stands for, if it is one. -/
def parseInt (s : String) : Option Int :=
  match s.data with
  | '-' :: rest => (parseNat (String.mk rest)).map (fun n => -Int.ofNat n)
  | _ => (parseNat s).map Int.ofNat

/-- The text of a flag, as written in an attribute. -/
def printBool (b : Bool) : String := if b then "true" else "false"

/-- The flag a text stands for, if it is one. -/
def parseBool (s : String) : Option Bool :=
  if s == "true" then some true else if s == "false" then some false else none

/-- Modelled from the spec: the `SaveToXml` of the entities is not part of the
sources. A sequence of strings is saved as one child element per string, in
order, each holding the string in its attribute `value`. -/
def saveStrings (tag : String) (l : List String) : List TiXmlElement :=
  l.map (fun v => .mk tag [("value", v)] [])

/-- Modelled from the spec: mirror of `saveStrings`. -/
def loadStrings (l : List TiXmlElement) : List String :=
  l.filterMap (fun e => e.Attribute "value")

/-- Modelled from the spec: the `SaveToXml` of a resource, not part of the
sources: an element holding the name, the flag and the file. -/
def Resource.SaveToXml (self : Resource) : TiXmlElement :=
  .mk "Resource" [("name", self.name), ("useFile", printBool self.useFile), ("file", self.file)] []

/-- Modelled from the spec: the `LoadFromXml` of a resource, mirror of its
`SaveToXml`. -/
def Resource.LoadFromXml (e : TiXmlElement) : Option Resource :=
  match e.Attribute "name", (e.Attribute "useFile").bind parseBool, e.Attribute "file" with
  | some name, some useFile, some file => some { name := name, useFile := useFile, file := file }
  | _, _, _ => none

/-- Modelled from the spec: the `SaveToXml` of an object, not part of the
sources: an element holding the name and one child per embedded reference. -/
def Object.SaveToXml (self : Object) : TiXmlElement :=
  .mk "Object" [("name", self.name)] (saveStrings "Resource" self.resources)

/-- Modelled from the spec: the `LoadFromXml` of an object, mirror of its
`SaveToXml`. -/
def Object.LoadFromXml (e : TiXmlElement) : Option Object :=
  match e.Attribute "name" with
  | some name => some { name := name, resources := loadStrings e.children }
  | none => none

/-- Modelled from the spec: the `SaveToXml` of an event tree, not part of the
sources: an element with one child per reference. -/
def Events.SaveToXml (self : Events) : TiXmlElement :=
  .mk "Events" [] (saveStrings "Resource" self.resources)

/-- Modelled from the spec: the `LoadFromXml` of an event tree, mirror of its
`SaveToXml`. -/
def Events.LoadFromXml (e : TiXmlElement) : Events :=
  { resources := loadStrings e.children }

/-- Modelled from the spec: the `SaveToXml` of a layout, not part of the
sources: an element holding the name, with a child for the objects and a
child for the events. -/
def Layout.SaveToXml (self : Layout) : TiXmlElement :=
  .mk "Layout" [("name", self.name)]
    [.mk "Objects" [] (self.objects.map Object.SaveToXml), self.events.SaveToXml]

/-- Modelled from the spec: the `LoadFromXml` of a layout, mirror of its
`SaveToXml`. -/
def Layout.LoadFromXml (e : TiXmlElement) : Option Layout :=
  match e.Attribute "name", e.FirstChildElement "Objects", e.FirstChildElement "Events" with
  | some name, some objects, some events =>
      some { name := name, objects := objects.children.filterMap Object.LoadFromXml,
             events := Events.LoadFromXml events }
  | _, _, _ => none

/-- Modelled from the spec: the `SaveToXml` of an external event sheet, not
part of the sources: an element holding the name, with a child for the events. -/
def ExternalEvents.SaveToXml (self : ExternalEvents) : TiXmlElement :=
  .mk "ExternalEvents" [("name", self.name)] [self.events.SaveToXml]

/-- Modelled from the spec: the `LoadFromXml` of an external event sheet,
mirror of its `SaveToXml`. -/
def ExternalEvents.LoadFromXml (e : TiXmlElement) : Option ExternalEvents :=
  match e.Attribute "name", e.FirstChildElement "Events" with
  | some name, some events => some { name := name, events := Events.LoadFromXml events }
  | _, _ => none

/-- Modelled from the spec: a global variable saved as an element holding its
name and its value. -/
def saveVariable (v : String × String) : TiXmlElement :=
  .mk "Variable" [("name", v.1), ("value", v.2)] []

/-- Modelled from the spec: mirror of `saveVariable`. -/
def loadVariable (e : TiXmlElement) : Option (String × String) :=
  match e.Attribute "name", e.Attribute "value" with
  | some name, some value => some (name, value)
  | _, _ => none

/-- Modelled from the spec: `Project::SaveToXml(root)` is not part of the
sources. It writes every attribute of the project on the root element and
links under it one child per owned sub-tree: resources, layouts, external
event sheets, global objects, variables, used extensions. The names of the
elements and of the attributes are a choice of this model. -/
def Project.SaveToXml (self : Project) (root : TiXmlElement) : TiXmlElement :=
  let root := root.SetAttribute "name" self.name
  let root := root.SetAttribute "author" self.author
  let root := root.SetAttribute "width" (printNat self.mainWindowDefaultWidth)
  let root := root.SetAttribute "height" (printNat self.mainWindowDefaultHeight)
  let root := root.SetAttribute "verticalSync"
    (printBool self.verticalSynchronizationEnabledByDefault)
  let root := root.SetAttribute "maxFPS" (printInt self.maximumFPS)
  let root := root.SetAttribute "minFPS" (printNat self.minimumFPS)
  let root := root.LinkEndChild
    (.mk "Resources" [] (self.resourcesManager.resources.map Resource.SaveToXml))
  let root := root.LinkEndChild (.mk "Layouts" [] (self.layouts.map Layout.SaveToXml))
  let root := root.LinkEndChild
    (.mk "ExternalEventsList" [] (self.externalEvents.map ExternalEvents.SaveToXml))
  let root := root.LinkEndChild (.mk "Objects" [] (self.objects.map Object.SaveToXml))
  let root := root.LinkEndChild (.mk "Variables" [] (self.globalVariables.map saveVariable))
  root.LinkEndChild (.mk "Extensions" [] (saveStrings "Extension" self.usedPlatformExtensions))

/-- A field of the project read from the root element when it is there, kept
as it is otherwise. -/
def loadField {α : Type} (found : Option α) (set : α → Project) (self : Project) : Project :=
  match found with
  | some v => set v
  | none => self

/-- Modelled from the spec: `Project::LoadFromXml(element)` is not part of the
sources. It mirrors `SaveToXml`: every attribute and every sub-tree found on
the root element replaces the one of the project; what an older document
does not hold is left as it is. -/
def Project.LoadFromXml (self : Project) : Option TiXmlElement → Project
  | none => self
  | some root =>
    let self := loadField (root.Attribute "name") (fun v => { self with name := v }) self
    let self := loadField (root.Attribute "author") (fun v => { self with author := v }) self
    let self := loadField ((root.Attribute "width").bind parseNat)
      (fun v => { self with mainWindowDefaultWidth := v }) self
    let self := loadField ((root.Attribute "height").bind parseNat)
      (fun v => { self with mainWindowDefaultHeight := v }) self
    let self := loadField ((root.Attribute "verticalSync").bind parseBool)
      (fun v => { self with verticalSynchronizationEnabledByDefault := v }) self
    let self := loadField ((root.Attribute "maxFPS").bind parseInt)
      (fun v => { self with maximumFPS := v }) self
    let self := loadField ((root.Attribute "minFPS").bind parseNat)
      (fun v => { self with minimumFPS := v }) self
    let self := loadField (root.FirstChildElement "Resources")
      (fun e => { self with
        resourcesManager := { resources := e.children.filterMap Resource.LoadFromXml } }) self
    let self := loadField (root.FirstChildElement "Layouts")
      (fun e => { self with layouts := e.children.filterMap Layout.LoadFromXml }) self
    let self := loadField (root.FirstChildElement "ExternalEventsList")
      (fun e => { self with externalEvents := e.children.filterMap ExternalEvents.LoadFromXml })
      self
    let self := loadField (root.FirstChildElement "Objects")
      (fun e => { self with objects := e.children.filterMap Object.LoadFromXml }) self
    let self := loadField (root.FirstChildElement "Variables")
      (fun e => { self with globalVariables := e.children.filterMap loadVariable }) self
    loadField (root.FirstChildElement "Extensions")
      (fun e => { self with usedPlatformExtensions := loadStrings e.children }) self

/-! ## What the claims speak of -/

/-- A character of the class `[A-Za-z0-9_]`. -/
def allowedChar (c : Char) : Prop :=
  ('A' ≤ c ∧ c ≤ 'Z') ∨ ('a' ≤ c ∧ c ≤ 'z') ∨ ('0' ≤ c ∧ c ≤ '9') ∨ c = '_'

/-- Some loaded extension of the platform whose name is in the list `used`
has, for one of the object types it declares, an object expression called
`name`. -/
def usedObjectExpression (platform : Platform) (used : List String) (name : String) : Prop :=
  ∃ ext ∈ platform.GetAllPlatformExtensions, ext.GetName ∈ used ∧
    ∃ objectType ∈ ext.GetExtensionObjectsTypes,
      ∃ it ∈ ext.GetAllExpressionsForObject objectType, it.1 = name

instance allowedChar_decidable : DecidablePred allowedChar := fun c => by
  unfold allowedChar; infer_instance

instance usedObjectExpression_decidable (platform : Platform) (used : List String)
    (name : String) : Decidable (usedObjectExpression platform used name) := by
  unfold usedObjectExpression; infer_instance

instance InRange_decidable (self : Project) : Decidable self.InRange := by
  unfold Project.InRange; infer_instance

/-- The resources of a registry with each file path replaced in turn by what
the visitor gives back for it: what the first loop of `ExposeResources` is
shown to compute when no two resources share a name. -/
def rewriteResources {σ : Type} (worker : ArbitraryResourceWorker σ) :
    List Resource → Exposure σ → List Resource × Exposure σ
  | [], e => ([], e)
  | r :: rest, e =>
      if r.useFile then
        let c := worker.call e r.file
        let t := rewriteResources worker rest c.2
        ({ r with file := c.1 } :: t.1, t.2)
      else
        let t := rewriteResources worker rest e
        (r :: t.1, t.2)

/-- The file paths of the file-backed resources of a registry, in registry
order. -/
def registryVisits (manager : ResourcesManager) : List String :=
  (manager.resources.filter (fun r => r.useFile)).map (fun r => r.file)

/-- The references exposed by each object of a sequence, in index order. -/
def objectsVisits : List Object → List String
  | [] => []
  | object :: rest => object.resources ++ objectsVisits rest

/-- The visits belonging to one layout: those of its objects in index order,
followed by those of the event worker on its event tree. -/
def layoutVisits (layout : Layout) : List String :=
  objectsVisits layout.objects ++ layout.events.resources

/-- The visits belonging to each layout of a sequence, in index order. -/
def layoutsVisits : List Layout → List String
  | [] => []
  | layout :: rest => layoutVisits layout ++ layoutsVisits rest

/-- The references exposed by the event worker on the event tree of each
external event sheet of a sequence, in index order. -/
def externalEventsVisits : List ExternalEvents → List String
  | [] => []
  | externalEvents :: rest => externalEvents.events.resources ++ externalEventsVisits rest

/-! ## Concrete platforms and projects -/

/-- A metadata holder with the global expressions `Sin` and `Cos` and the
string-expression `ToString`. -/
def sampleHolder : InstructionsMetadataHolder :=
  { HasExpression := fun name => name == "Sin" || name == "Cos",
    HasStrExpression := fun name => name == "ToString" }

/-- An extension called `Physics` whose object type `PhysicsBody` has the
object expression `Mass`. -/
def physicsExtension : PlatformExtension :=
  { GetName := "Physics",
    GetExtensionObjectsTypes := ["PhysicsBody"],
    GetAllExpressionsForObject := fun objectType =>
      if objectType == "PhysicsBody" then [("Mass", { fullname := "Mass of the body" })]
      else [] }

/-- A platform on which the `Physics` extension is loaded. -/
def samplePlatform : Platform :=
  { GetAllPlatformExtensions := [physicsExtension],
    GetInstructionsMetadataHolder := sampleHolder }

/-- A project on `samplePlatform` that uses no extension and owns nothing. -/
def blankProject : Project :=
  { name := "Project", author := "", mainWindowDefaultWidth := 800,
    mainWindowDefaultHeight := 600, verticalSynchronizationEnabledByDefault := false,
    maximumFPS := 60, minimumFPS := 10, globalVariables := [],
    usedPlatformExtensions := [], resourcesManager := { resources := [] },
    layouts := [], externalEvents := [], objects := [],
    platform := samplePlatform, projectFile := "" }

/-- A visitor without state that gives every path back unchanged. -/
def identityWorker : ArbitraryResourceWorker Unit :=
  { ExposeResource := fun s path => (s, path) }

/-- A visitor without state that relocates `a.png` to `b.png` and gives every
other path back unchanged. -/
def renamingWorker : ArbitraryResourceWorker Unit :=
  { ExposeResource := fun s path => (s, if path == "a.png" then "b.png" else path) }

/-- A project with no resource and no layout, and one global object holding
one reference. -/
def globalObjectProject : Project :=
  { blankProject with objects := [{ name := "Hero", resources := ["hero.png"] }] }

/-- A project with three resources, one of them not file-backed, two layouts
of one object each, one external event sheet and one global object. -/
def sampleProject : Project :=
  { blankProject with
    resourcesManager :=
      { resources := [{ name := "hero", useFile := true, file := "a.png" },
                      { name := "blur", useFile := false, file := "" },
                      { name := "enemy", useFile := true, file := "enemy.png" }] },
    layouts :=
      [{ name := "L1", objects := [{ name := "Hero", resources := ["a.png"] }],
         events := { resources := ["jump.wav"] } },
       { name := "L2", objects := [{ name := "Enemy", resources := ["enemy.png"] }],
         events := { resources := ["boom.wav"] } }],
    externalEvents := [{ name := "Shared", events := { resources := ["music.ogg"] } }],
    objects := [{ name := "Cursor", resources := ["cursor.png"] }] }

/-- A project whose maximum FPS is the sentinel `-1`. -/
def unlimitedProject : Project :=
  { blankProject with maximumFPS := -1 }

/-- Files among which `game.gdg` holds a document with a root element
`Project`, and no other path can be loaded. -/
def sampleFiles : FileSystem :=
  { LoadFile := fun path =>
      if path == "game.gdg" then
        .ok { children := [.declaration "1.0" "ISO-8859-1" "",
                           .element (.mk "Project" [("name", "Game")] [])] }
      else .error "Failed to open file",
    writable := fun path => path != "" }

/-- A stand-in for `LoadFromXml` that reads the name of the project from the
attribute `name` of the root element. -/
def sampleLoadFromXml (project : Project) : Option TiXmlElement → Project
  | some (.mk _ attributes _) =>
      match attributes.lookup "name" with
      | some name => project.SetName name
      | none => project
  | none => project

/-! ## Theorems on `ValidateObjectName` -/

theorem contains_eq_true_iff (l : List String) (a : String) :
    l.contains a = true ↔ a ∈ l := by
  simp

theorem scanExpressions_eq (name : String) (l : List (String × ExpressionMetadata)) (b : Bool) :
    scanExpressions name l b = (b || l.any (fun it => name == it.1)) := by
  induction l generalizing b with
  | nil => simp [scanExpressions]
  | cons it rest ih =>
    simp only [scanExpressions, ih, List.any_cons]
    by_cases h : (name == it.1) = true
    · simp [h]
    · simp only [Bool.not_eq_true] at h
      simp [h]

theorem scanObjectsTypes_eq (name : String) (ext : PlatformExtension) (l : List String)
    (b : Bool) :
    scanObjectsTypes name ext l b =
      (b || l.any (fun ty => (ext.GetAllExpressionsForObject ty).any (fun it => name == it.1))) := by
  induction l generalizing b with
  | nil => simp [scanObjectsTypes]
  | cons ty rest ih =>
    simp only [scanObjectsTypes, ih, scanExpressions_eq, List.any_cons, Bool.or_assoc]

theorem scanExtensions_eq (name : String) (used : List String) (l : List PlatformExtension)
    (b : Bool) :
    scanExtensions name used l b =
      (b || l.any (fun ext => used.contains ext.GetName &&
        ext.GetExtensionObjectsTypes.any
          (fun ty => (ext.GetAllExpressionsForObject ty).any (fun it => name == it.1)))) := by
  induction l generalizing b with
  | nil => simp [scanExtensions]
  | cons ext rest ih =>
    simp only [scanExtensions, List.any_cons]
    split
    · rename_i h
      rw [ih, scanObjectsTypes_eq, h, Bool.true_and, Bool.or_assoc]
    · rename_i h
      rw [ih]
      simp only [Bool.not_eq_true] at h
      rw [h, Bool.false_and, Bool.false_or]

theorem scanExtensions_eq_true_iff (platform : Platform) (used : List String) (name : String)
    (b : Bool) :
    scanExtensions name used platform.GetAllPlatformExtensions b = true ↔
      b = true ∨ usedObjectExpression platform used name := by
  rw [scanExtensions_eq]
  simp only [Bool.or_eq_true, List.any_eq_true, Bool.and_eq_true, contains_eq_true_iff,
    beq_iff_eq, usedObjectExpression]
  constructor
  · rintro (h | ⟨ext, he, hu, ty, hty, it, hit, hname⟩)
    · exact Or.inl h
    · exact Or.inr ⟨ext, he, hu, ty, hty, it, hit, hname.symm⟩
  · rintro (h | ⟨ext, he, hu, ty, hty, it, hit, hname⟩)
    · exact Or.inl h
    · exact Or.inr ⟨ext, he, hu, ty, hty, it, hit, hname.symm⟩

theorem find_first_not_of_from_eq_none (allowed cs : List Char) (i : Nat) :
    find_first_not_of_from allowed cs i = none ↔ ∀ c ∈ cs, c ∈ allowed := by
  induction cs generalizing i with
  | nil => simp [find_first_not_of_from]
  | cons c cs ih =>
    simp only [find_first_not_of_from, List.mem_cons, forall_eq_or_imp]
    by_cases h : c ∈ allowed
    · simp [h, ih]
    · simp [h]


theorem allowedChar_of_mem : ∀ c ∈ allowedCharacter.data, allowedChar c := by
  decide

theorem char_le_iff (a b : Char) : a ≤ b ↔ a.toNat ≤ b.toNat := by
  rfl

theorem mem_of_allowedChar (c : Char) (h : allowedChar c) : c ∈ allowedCharacter.data := by
  have hc : c = Char.ofNat c.toNat := (Char.ofNat_toNat c).symm
  unfold allowedChar at h
  simp only [char_le_iff] at h
  generalize hn : c.toNat = n at h hc
  rcases h with ⟨h1, h2⟩ | ⟨h1, h2⟩ | ⟨h1, h2⟩ | h
  · have h1 : 65 ≤ n := h1
    have h2 : n ≤ 90 := h2
    subst hc
    interval_cases n <;> decide
  · have h1 : 97 ≤ n := h1
    have h2 : n ≤ 122 := h2
    subst hc
    interval_cases n <;> decide
  · have h1 : 48 ≤ n := h1
    have h2 : n ≤ 57 := h2
    subst hc
    interval_cases n <;> decide
  · subst h; decide


theorem find_first_not_of_allowed (name : String) :
    find_first_not_of name allowedCharacter = none ↔ ∀ c ∈ name.data, allowedChar c := by
  unfold find_first_not_of
  rw [find_first_not_of_from_eq_none]
  exact ⟨fun h c hc => allowedChar_of_mem c (h c hc), fun h c hc => mem_of_allowedChar c (h c hc)⟩

theorem ValidateObjectName_eq_true_iff (p : Project) (name : String) :
    p.ValidateObjectName name = true ↔
      (∀ c ∈ name.data, allowedChar c) ∧
      p.platform.GetInstructionsMetadataHolder.HasExpression name = false ∧
      p.platform.GetInstructionsMetadataHolder.HasStrExpression name = false ∧
      ¬ usedObjectExpression p.platform p.usedPlatformExtensions name := by
  have hscan := scanExtensions_eq_true_iff p.platform p.usedPlatformExtensions name
    (p.platform.GetInstructionsMetadataHolder.HasExpression name ||
      p.platform.GetInstructionsMetadataHolder.HasStrExpression name)
  have hchars := find_first_not_of_allowed name
  unfold Project.ValidateObjectName
  simp only [Bool.not_eq_true', Bool.or_eq_false_iff, bne_eq_false_iff_eq, hchars]
  rw [← Bool.not_eq_true, hscan]
  simp only [Bool.or_eq_true, not_or, Bool.not_eq_true, and_assoc]


theorem any_and_eq_any_filter {α : Type} (f g : α → Bool) (l : List α) :
    l.any (fun a => f a && g a) = (l.filter f).any g := by
  induction l with
  | nil => rfl
  | cons a rest ih =>
    by_cases h : f a = true
    · rw [List.filter_cons_of_pos h, List.any_cons, List.any_cons, ih, h, Bool.true_and]
    · rw [List.filter_cons_of_neg h, List.any_cons, ih]
      simp only [Bool.not_eq_true] at h
      rw [h, Bool.false_and, Bool.false_or]

theorem ValidateObjectName_filter (p q : Project) (name : String)
    (hholder : q.platform.GetInstructionsMetadataHolder = p.platform.GetInstructionsMetadataHolder)
    (hused : q.usedPlatformExtensions = p.usedPlatformExtensions)
    (hexts : q.platform.GetAllPlatformExtensions.filter
        (fun ext => p.usedPlatformExtensions.contains ext.GetName) =
      p.platform.GetAllPlatformExtensions.filter
        (fun ext => p.usedPlatformExtensions.contains ext.GetName)) :
    q.ValidateObjectName name = p.ValidateObjectName name := by
  unfold Project.ValidateObjectName
  simp only [scanExtensions_eq, hholder, hused]
  rw [any_and_eq_any_filter (fun ext => p.usedPlatformExtensions.contains ext.GetName)
      (fun ext => ext.GetExtensionObjectsTypes.any
        (fun ty => (ext.GetAllExpressionsForObject ty).any (fun it => name == it.1)))
      q.platform.GetAllPlatformExtensions,
    any_and_eq_any_filter (fun ext => p.usedPlatformExtensions.contains ext.GetName)
      (fun ext => ext.GetExtensionObjectsTypes.any
        (fun ty => (ext.GetAllExpressionsForObject ty).any (fun it => name == it.1)))
      p.platform.GetAllPlatformExtensions, hexts]

/-- C1. For every project (with its platform) and every non-empty candidate
`name`, `ValidateObjectName name` returns `true` if and only if (a) every
character of `name` is in `[A-Za-z0-9_]`, (b) the instructions metadata holder
has no expression called `name`, (c) it has no string-expression called
`name`, and (d) no loaded extension whose name is in the project's list of
used extensions has, for an object type it declares, an object expression
called `name`. -/
theorem ValidateObjectName_iff (p : Project) (name : String) (_hne : name ≠ "") :
    p.ValidateObjectName name = true ↔
      (∀ c ∈ name.data, allowedChar c) ∧
      p.platform.GetInstructionsMetadataHolder.HasExpression name = false ∧
      p.platform.GetInstructionsMetadataHolder.HasStrExpression name = false ∧
      ¬ usedObjectExpression p.platform p.usedPlatformExtensions name :=
  ValidateObjectName_eq_true_iff p name

/-- Witness of C1: the candidate `PlayerScore_2` on `blankProject`. -/
theorem ValidateObjectName_iff_witness :
    "PlayerScore_2" ≠ "" ∧
    (blankProject.ValidateObjectName "PlayerScore_2" = true ↔
      (∀ c ∈ "PlayerScore_2".data, allowedChar c) ∧
      blankProject.platform.GetInstructionsMetadataHolder.HasExpression "PlayerScore_2" = false ∧
      blankProject.platform.GetInstructionsMetadataHolder.HasStrExpression "PlayerScore_2" = false ∧
      ¬ usedObjectExpression blankProject.platform blankProject.usedPlatformExtensions
          "PlayerScore_2") :=
  ⟨by decide, ValidateObjectName_iff blankProject "PlayerScore_2" (by decide)⟩

/-- C7. Extension scoping. Let `name` be a non-empty candidate made of
characters of `[A-Za-z0-9_]` that is neither a global expression nor a global
string-expression, and let `E` be a loaded extension that has an object
expression called `name` for one of its object types. If no loaded extension
whose name is in the used-extensions list has an object expression called
`name`, then `E` is not in that list and `ValidateObjectName name` returns
`true`; on every project with the same platform whose used-extensions list
holds the name of `E`, in particular once the name of `E` is appended to the
list, it returns `false`. And for every candidate the result is the same on
two platforms with the same metadata holder whose loaded extensions differ
only by extensions whose name is not in the used-extensions list. -/
theorem ValidateObjectName_extension_scoping (p : Project) (name : String)
    (E : PlatformExtension) (objectType : String) (it : String × ExpressionMetadata)
    (_hne : name ≠ "") (hchars : ∀ c ∈ name.data, allowedChar c)
    (hexpr : p.platform.GetInstructionsMetadataHolder.HasExpression name = false)
    (hstr : p.platform.GetInstructionsMetadataHolder.HasStrExpression name = false)
    (hE : E ∈ p.platform.GetAllPlatformExtensions)
    (hty : objectType ∈ E.GetExtensionObjectsTypes)
    (hit : it ∈ E.GetAllExpressionsForObject objectType) (hname : it.1 = name) :
    (¬ usedObjectExpression p.platform p.usedPlatformExtensions name →
      E.GetName ∉ p.usedPlatformExtensions ∧ p.ValidateObjectName name = true) ∧
    (∀ q : Project, q.platform = p.platform → E.GetName ∈ q.usedPlatformExtensions →
      q.ValidateObjectName name = false) ∧
    Project.ValidateObjectName
      { p with usedPlatformExtensions := p.usedPlatformExtensions ++ [E.GetName] } name = false ∧
    (∀ (q : Project) (candidate : String),
      q.platform.GetInstructionsMetadataHolder = p.platform.GetInstructionsMetadataHolder →
      q.usedPlatformExtensions = p.usedPlatformExtensions →
      q.platform.GetAllPlatformExtensions.filter
          (fun ext => p.usedPlatformExtensions.contains ext.GetName) =
        p.platform.GetAllPlatformExtensions.filter
          (fun ext => p.usedPlatformExtensions.contains ext.GetName) →
      q.ValidateObjectName candidate = p.ValidateObjectName candidate) := by
  have hrej : ∀ q : Project, q.platform = p.platform → E.GetName ∈ q.usedPlatformExtensions →
      q.ValidateObjectName name = false := by
    intro q hq hmem
    rw [← Bool.not_eq_true, ValidateObjectName_eq_true_iff]
    intro h
    exact h.2.2.2 ⟨E, hq ▸ hE, hmem, objectType, hty, it, hit, hname⟩
  refine ⟨?_, hrej, ?_, ?_⟩
  · intro hno
    refine ⟨fun hmem => hno ⟨E, hE, hmem, objectType, hty, it, hit, hname⟩, ?_⟩
    exact (ValidateObjectName_eq_true_iff p name).2 ⟨hchars, hexpr, hstr, hno⟩
  · exact hrej _ rfl (by simp)
  · intro q candidate hholder hused hexts
    exact ValidateObjectName_filter p q candidate hholder hused hexts

/-- Witness of C7: the candidate `Mass` and the extension `Physics` on
`blankProject`, which uses no extension. -/
theorem ValidateObjectName_extension_scoping_witness :
    (¬ usedObjectExpression blankProject.platform blankProject.usedPlatformExtensions "Mass" →
      physicsExtension.GetName ∉ blankProject.usedPlatformExtensions ∧
        blankProject.ValidateObjectName "Mass" = true) ∧
    Project.ValidateObjectName
      { blankProject with
        usedPlatformExtensions :=
          blankProject.usedPlatformExtensions ++ [physicsExtension.GetName] } "Mass" = false :=
  have h := ValidateObjectName_extension_scoping blankProject "Mass" physicsExtension
    "PhysicsBody" ("Mass", { fullname := "Mass of the body" })
    (by decide) (by decide) (by decide) (by decide) (by simp [blankProject, samplePlatform])
    (by simp [physicsExtension]) (by simp [physicsExtension]) rfl
  ⟨h.1, h.2.2.1⟩

/-- Counterexample to C8: on `blankProject`, whose platform has no expression
with an empty name, the empty candidate is accepted. -/
theorem empty_candidate_accepted : blankProject.ValidateObjectName "" = true := by
  decide

/-- C8, amended. For every project and platform, `ValidateObjectName ""`
returns `true` exactly when the empty string is neither a global expression
nor a global string-expression and no loaded, used extension has an object
expression with the empty name: the character check does not reject the empty
candidate. -/
theorem ValidateObjectName_empty (p : Project) :
    p.ValidateObjectName "" = true ↔
      p.platform.GetInstructionsMetadataHolder.HasExpression "" = false ∧
      p.platform.GetInstructionsMetadataHolder.HasStrExpression "" = false ∧
      ¬ usedObjectExpression p.platform p.usedPlatformExtensions "" := by
  rw [ValidateObjectName_eq_true_iff]
  constructor
  · exact fun h => h.2
  · exact fun h => ⟨by simp, h⟩


/-! ## Theorems on `ExposeResources` -/

theorem call_visits {σ : Type} (worker : ArbitraryResourceWorker σ) (e : Exposure σ)
    (path : String) : (worker.call e path).2.visits = e.visits ++ [path] := rfl

theorem exposeReferences_visits {σ : Type} (worker : ArbitraryResourceWorker σ)
    (l : List String) (e : Exposure σ) :
    (exposeReferences worker l e).2.visits = e.visits ++ l := by
  induction l generalizing e with
  | nil => simp [exposeReferences]
  | cons path rest ih => simp [exposeReferences, ih, call_visits]

theorem exposeObjects_visits {σ : Type} (worker : ArbitraryResourceWorker σ)
    (l : List Object) (e : Exposure σ) :
    (exposeObjects worker l e).2.visits = e.visits ++ objectsVisits l := by
  induction l generalizing e with
  | nil => simp [exposeObjects, objectsVisits]
  | cons object rest ih =>
    simp [exposeObjects, objectsVisits, ih, Object.ExposeResources, exposeReferences_visits]

theorem exposeLayouts_visits {σ : Type} (worker : ArbitraryResourceWorker σ)
    (l : List Layout) (e : Exposure σ) :
    (exposeLayouts worker l e).2.visits = e.visits ++ layoutsVisits l := by
  induction l generalizing e with
  | nil => simp [exposeLayouts, layoutsVisits]
  | cons layout rest ih =>
    simp [exposeLayouts, layoutsVisits, layoutVisits, ih, LaunchResourceWorkerOnEvents,
      exposeReferences_visits, exposeObjects_visits]

theorem exposeExternalEvents_visits {σ : Type} (worker : ArbitraryResourceWorker σ)
    (l : List ExternalEvents) (e : Exposure σ) :
    (exposeExternalEvents worker l e).2.visits = e.visits ++ externalEventsVisits l := by
  induction l generalizing e with
  | nil => simp [exposeExternalEvents, externalEventsVisits]
  | cons externalEvents rest ih =>
    simp [exposeExternalEvents, externalEventsVisits, ih, LaunchResourceWorkerOnEvents,
      exposeReferences_visits]

theorem rewriteResources_visits {σ : Type} (worker : ArbitraryResourceWorker σ)
    (l : List Resource) (e : Exposure σ) :
    (rewriteResources worker l e).2.visits = e.visits ++ registryVisits { resources := l } := by
  induction l generalizing e with
  | nil => simp [rewriteResources, registryVisits]
  | cons r rest ih =>
    by_cases h : r.useFile = true
    · simp [rewriteResources, h, ih, call_visits, registryVisits, List.filter_cons]
    · simp only [Bool.not_eq_true] at h
      simp [rewriteResources, h, ih, registryVisits, List.filter_cons]


theorem GetResource_append (done rest : List Resource) (r : Resource)
    (h : ∀ d ∈ done, d.name ≠ r.name) :
    ResourcesManager.GetResource { resources := done ++ r :: rest } r.name = r := by
  induction done with
  | nil => simp [ResourcesManager.GetResource, List.find?]
  | cons d done ih =>
    have hd : (d.name == r.name) = false := by simpa using h d (List.mem_cons_self _ _)
    have ih := ih (fun x hx => h x (List.mem_cons_of_mem _ hx))
    simp only [ResourcesManager.GetResource, List.cons_append, List.find?, hd] at ih ⊢
    exact ih

theorem storeFile_append (done rest : List Resource) (r : Resource) (file : String)
    (h : ∀ d ∈ done, d.name ≠ r.name) :
    storeFile r.name file (done ++ r :: rest) = done ++ { r with file := file } :: rest := by
  induction done with
  | nil => simp [storeFile]
  | cons d done ih =>
    have hd : (d.name == r.name) = false := by simpa using h d (List.mem_cons_self _ _)
    have ih := ih (fun x hx => h x (List.mem_cons_of_mem _ hx))
    simp [storeFile, hd, ih]

theorem exposeProjectResources_append {σ : Type} (worker : ArbitraryResourceWorker σ)
    (todo done : List Resource) (e : Exposure σ)
    (h : ∀ d ∈ done, ∀ t ∈ todo, d.name ≠ t.name)
    (hnd : (todo.map (fun r => r.name)).Nodup) :
    exposeProjectResources worker (todo.map (fun r => r.name)) { resources := done ++ todo } e =
      ({ resources := done ++ (rewriteResources worker todo e).1 },
        (rewriteResources worker todo e).2) := by
  induction todo generalizing done e with
  | nil => simp [exposeProjectResources, rewriteResources]
  | cons r rest ih =>
    have hr : ∀ d ∈ done, d.name ≠ r.name := fun d hd => h d hd r (List.mem_cons_self _ _)
    rw [List.map_cons, List.nodup_cons] at hnd
    have hrest : ∀ t ∈ rest, r.name ≠ t.name := by
      intro t ht heq
      exact hnd.1 (List.mem_map.2 ⟨t, ht, heq.symm⟩)
    simp only [List.map_cons, exposeProjectResources, GetResource_append done rest r hr,
      rewriteResources]
    by_cases huse : r.useFile = true
    · simp only [huse, if_true, ResourcesManager.SetFile, storeFile_append done rest r _ hr]
      have hcond : ∀ d ∈ done ++ [{ r with file := (worker.call e r.file).1 }], ∀ t ∈ rest,
          d.name ≠ t.name := by
        intro d hd t ht
        rcases List.mem_append.1 hd with hd | hd
        · exact h d hd t (List.mem_cons_of_mem _ ht)
        · rw [List.mem_singleton] at hd
          subst hd
          exact hrest t ht
      have := ih (done ++ [{ r with file := (worker.call e r.file).1 }])
        (worker.call e r.file).2 hcond hnd.2
      simp only [List.append_assoc, List.singleton_append, huse] at this
      exact this
    · simp only [huse, if_false]
      have hcond : ∀ d ∈ done ++ [r], ∀ t ∈ rest, d.name ≠ t.name := by
        intro d hd t ht
        rcases List.mem_append.1 hd with hd | hd
        · exact h d hd t (List.mem_cons_of_mem _ ht)
        · rw [List.mem_singleton] at hd
          subst hd
          exact hrest t ht
      have := ih (done ++ [r]) e hcond hnd.2
      simp only [List.append_assoc, List.singleton_append] at this
      exact this

theorem exposeProjectResources_eq {σ : Type} (worker : ArbitraryResourceWorker σ)
    (manager : ResourcesManager) (e : Exposure σ)
    (hnd : manager.GetAllResourcesList.Nodup) :
    exposeProjectResources worker manager.GetAllResourcesList manager e =
      ({ resources := (rewriteResources worker manager.resources e).1 },
        (rewriteResources worker manager.resources e).2) := by
  have := exposeProjectResources_append worker manager.resources [] e
    (fun d hd => absurd hd (List.not_mem_nil d)) hnd
  simpa [ResourcesManager.GetAllResourcesList] using this


theorem layoutsVisits_append (l₁ l₂ : List Layout) :
    layoutsVisits (l₁ ++ l₂) = layoutsVisits l₁ ++ layoutsVisits l₂ := by
  induction l₁ with
  | nil => simp [layoutsVisits]
  | cons layout rest ih => simp [layoutsVisits, ih]

theorem ExposeResources_visits {σ : Type} (p : Project) (worker : ArbitraryResourceWorker σ)
    (e : Exposure σ) (hnd : p.resourcesManager.GetAllResourcesList.Nodup) :
    (p.ExposeResources worker e).2.visits =
      e.visits ++ (registryVisits p.resourcesManager ++ (layoutsVisits p.layouts ++
        (externalEventsVisits p.externalEvents ++ objectsVisits p.objects))) := by
  simp only [Project.ExposeResources, exposeObjects_visits, exposeExternalEvents_visits,
    exposeLayouts_visits, exposeProjectResources_eq worker p.resourcesManager e hnd,
    rewriteResources_visits, List.append_assoc]

theorem ExposeResources_resourcesManager {σ : Type} (p : Project)
    (worker : ArbitraryResourceWorker σ) (e : Exposure σ)
    (hnd : p.resourcesManager.GetAllResourcesList.Nodup) :
    (p.ExposeResources worker e).1.resourcesManager =
      { resources := (rewriteResources worker p.resourcesManager.resources e).1 } := by
  simp only [Project.ExposeResources, exposeProjectResources_eq worker p.resourcesManager e hnd]

theorem rewriteResources_names {σ : Type} (worker : ArbitraryResourceWorker σ)
    (l : List Resource) (e : Exposure σ) :
    (rewriteResources worker l e).1.map (fun r => r.name) = l.map (fun r => r.name) := by
  induction l generalizing e with
  | nil => simp [rewriteResources]
  | cons r rest ih =>
    by_cases h : r.useFile = true
    · simp [rewriteResources, h, ih]
    · simp only [Bool.not_eq_true] at h
      simp [rewriteResources, h, ih]

theorem rewriteResources_GetResource {σ : Type} (worker : ArbitraryResourceWorker σ)
    (l : List Resource) (e : Exposure σ) (hnd : (l.map (fun r => r.name)).Nodup)
    (r : Resource) (hr : r ∈ l) :
    ∃ s : σ, ResourcesManager.GetResource { resources := (rewriteResources worker l e).1 } r.name =
      if r.useFile then { r with file := (worker.ExposeResource s r.file).2 } else r := by
  induction l generalizing e with
  | nil => exact absurd hr (List.not_mem_nil r)
  | cons x rest ih =>
    rw [List.map_cons, List.nodup_cons] at hnd
    by_cases hx : x.name = r.name
    · have hrx : r = x := by
        rcases List.mem_cons.1 hr with h | h
        · exact h
        · exact absurd (List.mem_map.2 ⟨r, h, hx.symm⟩) hnd.1
      subst hrx
      refine ⟨e.state, ?_⟩
      by_cases h : r.useFile = true
      · simp [rewriteResources, h, ResourcesManager.GetResource, ArbitraryResourceWorker.call]
      · simp only [Bool.not_eq_true] at h
        simp [rewriteResources, h, ResourcesManager.GetResource]
    · have hrest : r ∈ rest := by
        rcases List.mem_cons.1 hr with h | h
        · exact absurd (h ▸ rfl) hx
        · exact h
      have hbeq : (x.name == r.name) = false := by simpa using hx
      by_cases h : x.useFile = true
      · obtain ⟨s, hs⟩ := ih (worker.call e x.file).2 hnd.2 hrest
        refine ⟨s, ?_⟩
        simp only [ResourcesManager.GetResource] at hs ⊢
        simp only [rewriteResources, h, if_true, List.find?, hbeq]
        exact hs
      · simp only [Bool.not_eq_true] at h
        obtain ⟨s, hs⟩ := ih e hnd.2 hrest
        refine ⟨s, ?_⟩
        simp only [ResourcesManager.GetResource] at hs ⊢
        simp only [rewriteResources, h, List.find?, hbeq]
        exact hs


theorem count_registryVisits (l : List Resource) (path : String) :
    (registryVisits { resources := l }).count path =
      (l.filter (fun r => r.useFile && r.file == path)).length := by
  induction l with
  | nil => simp [registryVisits]
  | cons r rest ih =>
    simp only [registryVisits] at ih
    by_cases h : r.useFile = true
    · by_cases hp : r.file = path
      · simp [registryVisits, List.filter_cons, h, hp, ih]
      · have hb : (r.file == path) = false := by simpa using hp
        simp [registryVisits, List.filter_cons, h, hb, ih, List.count_cons]
    · simp only [Bool.not_eq_true] at h
      simp [registryVisits, List.filter_cons, h, ih]

/-- C2. For every project whose registry has no two resources of the same
name and every visitor, the sequence of visits made by `ExposeResources` is
the concatenation, in this order, of (1) the files of the file-backed
resources of the registry, (2) for each layout in index order the references
of its objects in index order followed by those of its event tree, (3) for each
external event sheet in index order the references of its event tree, (4) the
references of each global object in index order. In particular, when layout
`L1` comes before layout `L2`, the visits of `L1` (objects, then events) all
come before those of `L2`. -/
theorem ExposeResources_order {σ : Type} (p : Project) (worker : ArbitraryResourceWorker σ)
    (s : σ) (hnd : p.resourcesManager.GetAllResourcesList.Nodup) :
    (p.ExposeResources worker { state := s, visits := [] }).2.visits =
        registryVisits p.resourcesManager ++ layoutsVisits p.layouts ++
          externalEventsVisits p.externalEvents ++ objectsVisits p.objects ∧
    ∀ (before between after : List Layout) (L1 L2 : Layout),
      p.layouts = before ++ L1 :: between ++ L2 :: after →
      (p.ExposeResources worker { state := s, visits := [] }).2.visits =
        registryVisits p.resourcesManager ++ layoutsVisits before ++
          (objectsVisits L1.objects ++ L1.events.resources) ++ layoutsVisits between ++
          (objectsVisits L2.objects ++ L2.events.resources) ++ layoutsVisits after ++
          externalEventsVisits p.externalEvents ++ objectsVisits p.objects := by
  have h := ExposeResources_visits p worker { state := s, visits := [] } hnd
  refine ⟨by simpa using h, ?_⟩
  intro before between after L1 L2 hl
  rw [h, hl]
  simp [layoutsVisits_append, layoutsVisits, layoutVisits]

/-- Witness of C2: `sampleProject` and the visitor that renames `a.png`. -/
theorem ExposeResources_order_witness :
    (sampleProject.ExposeResources renamingWorker { state := (), visits := [] }).2.visits =
      ["a.png", "enemy.png", "a.png", "jump.wav", "enemy.png", "boom.wav", "music.ogg",
        "cursor.png"] :=
  (ExposeResources_order sampleProject renamingWorker () (by decide)).1

/-- C5. Visitor rewrite propagation. For every project whose registry has no
two resources of the same name, every visitor that maps the path `path` to
`path'` whatever its state, and every file-backed resource of the registry
with file `path`: after `ExposeResources` the resource registered under that
name is the same resource with file `path'`. Every resource whose file the
visitor gives back unchanged, and every resource that is not file-backed, is
found unchanged after the call; the names of the registry are unchanged. -/
theorem ExposeResources_rewrite {σ : Type} (p : Project) (worker : ArbitraryResourceWorker σ)
    (e : Exposure σ) (hnd : p.resourcesManager.GetAllResourcesList.Nodup)
    (path path' : String) (hmap : ∀ s : σ, (worker.ExposeResource s path).2 = path') :
    (∀ r ∈ p.resourcesManager.resources, r.useFile = true → r.file = path →
      (p.ExposeResources worker e).1.resourcesManager.GetResource r.name =
        { r with file := path' }) ∧
    (∀ r ∈ p.resourcesManager.resources,
      (r.useFile = false ∨ ∀ s : σ, (worker.ExposeResource s r.file).2 = r.file) →
      (p.ExposeResources worker e).1.resourcesManager.GetResource r.name = r) ∧
    (p.ExposeResources worker e).1.resourcesManager.GetAllResourcesList =
      p.resourcesManager.GetAllResourcesList := by
  rw [ExposeResources_resourcesManager p worker e hnd]
  refine ⟨?_, ?_, ?_⟩
  · intro r hr huse hfile
    obtain ⟨s, hs⟩ := rewriteResources_GetResource worker p.resourcesManager.resources e hnd r hr
    rw [hs, if_pos huse, hfile, hmap s]
  · intro r hr hkeep
    obtain ⟨s, hs⟩ := rewriteResources_GetResource worker p.resourcesManager.resources e hnd r hr
    rw [hs]
    rcases hkeep with hno | hsame
    · simp [hno]
    · rw [hsame s]
      simp
  · exact rewriteResources_names worker p.resourcesManager.resources e

/-- Witness of C5: on `sampleProject` the visitor that renames `a.png` to
`b.png` leaves the resource `hero` with the file `b.png`. -/
theorem ExposeResources_rewrite_witness :
    ((sampleProject.ExposeResources renamingWorker
        { state := (), visits := [] }).1.resourcesManager.GetResource "hero").file = "b.png" :=
  congrArg Resource.file
    ((ExposeResources_rewrite sampleProject renamingWorker { state := (), visits := [] }
      (by decide) "a.png" "b.png" (fun _ => rfl)).1
      { name := "hero", useFile := true, file := "a.png" } (by decide) rfl rfl)

theorem find_storeFile_useFile (name file x : String) (l : List Resource) :
    ((storeFile name file l).find? (fun r => r.name == x)).map (fun r => r.useFile) =
      (l.find? (fun r => r.name == x)).map (fun r => r.useFile) := by
  induction l with
  | nil => rfl
  | cons r rest ih =>
    unfold storeFile
    by_cases hn : (r.name == name) = true
    · rw [if_pos hn]
      by_cases hx : (r.name == x) = true
      · simp [List.find?, hx]
      · simp only [Bool.not_eq_true] at hx
        simp [List.find?, hx]
    · rw [if_neg hn]
      by_cases hx : (r.name == x) = true
      · simp [List.find?, hx]
      · simp only [Bool.not_eq_true] at hx
        simp only [List.find?, hx]
        exact ih

theorem GetResource_SetFile_useFile (manager : ResourcesManager) (name file x : String) :
    ((manager.SetFile name file).GetResource x).useFile = (manager.GetResource x).useFile := by
  have h := find_storeFile_useFile name file x manager.resources
  unfold ResourcesManager.GetResource ResourcesManager.SetFile
  cases h1 : (storeFile name file manager.resources).find? (fun r => r.name == x) <;>
    cases h2 : manager.resources.find? (fun r => r.name == x) <;>
    simp_all

theorem exposeProjectResources_length {σ : Type} (worker : ArbitraryResourceWorker σ)
    (names : List String) (manager : ResourcesManager) (e : Exposure σ) :
    (exposeProjectResources worker names manager e).2.visits.length =
      e.visits.length + (names.filter (fun n => (manager.GetResource n).useFile)).length := by
  induction names generalizing manager e with
  | nil => simp [exposeProjectResources]
  | cons n rest ih =>
    unfold exposeProjectResources
    by_cases h : (manager.GetResource n).useFile = true
    · rw [if_pos h, ih]
      simp only [GetResource_SetFile_useFile, call_visits, List.length_append,
        List.length_cons, List.length_nil, List.filter_cons, h, if_true]
      omega
    · rw [if_neg h, ih]
      simp [List.filter_cons, h]

/-- C6. Traversal completeness on the registry. For every project, the
first loop of `ExposeResources` makes one call to the visitor for each entry
of `GetAllResourcesList()` whose resource has `UseFile()` true and none for
the other entries. When no two resources of the registry share a name, the
paths passed are the files of the resources that use a file, in registry
order: a path is visited as many times as there are file-backed resources
with that file (no deduplication), and these visits are the first ones of the
whole traversal. -/
theorem ExposeResources_registry_phase {σ : Type} (p : Project)
    (worker : ArbitraryResourceWorker σ) (s : σ) :
    (exposeProjectResources worker p.resourcesManager.GetAllResourcesList p.resourcesManager
        { state := s, visits := [] }).2.visits.length =
      (p.resourcesManager.GetAllResourcesList.filter
        (fun name => (p.resourcesManager.GetResource name).useFile)).length ∧
    (p.resourcesManager.GetAllResourcesList.Nodup →
      (exposeProjectResources worker p.resourcesManager.GetAllResourcesList p.resourcesManager
          { state := s, visits := [] }).2.visits =
        (p.resourcesManager.resources.filter (fun r => r.useFile)).map (fun r => r.file) ∧
      (∀ path : String,
        (exposeProjectResources worker p.resourcesManager.GetAllResourcesList p.resourcesManager
            { state := s, visits := [] }).2.visits.count path =
          (p.resourcesManager.resources.filter
            (fun r => r.useFile && r.file == path)).length) ∧
      (exposeProjectResources worker p.resourcesManager.GetAllResourcesList p.resourcesManager
          { state := s, visits := [] }).2.visits <+:
        (p.ExposeResources worker { state := s, visits := [] }).2.visits) := by
  refine ⟨?_, fun hnd => ?_⟩
  · rw [exposeProjectResources_length]
    simp
  have hphase : (exposeProjectResources worker p.resourcesManager.GetAllResourcesList
      p.resourcesManager { state := s, visits := [] }).2.visits =
      registryVisits p.resourcesManager := by
    rw [exposeProjectResources_eq worker p.resourcesManager _ hnd, rewriteResources_visits]
    simp
  refine ⟨hphase, ?_, ?_⟩
  · intro path
    rw [hphase]
    exact count_registryVisits p.resourcesManager.resources path
  · rw [hphase, ExposeResources_visits p worker _ hnd, List.nil_append]
    exact List.prefix_append _ _

/-- Witness of C6: the registry of `sampleProject`, where `blur` uses no file. -/
theorem ExposeResources_registry_phase_witness :
    (exposeProjectResources renamingWorker sampleProject.resourcesManager.GetAllResourcesList
        sampleProject.resourcesManager { state := (), visits := [] }).2.visits =
      ["a.png", "enemy.png"] :=
  ((ExposeResources_registry_phase sampleProject renamingWorker ()).2 (by decide)).1

/-- Counterexample to C9: `globalObjectProject` has no resource and no layout,
and its traversal visits the reference of its global object. -/
theorem global_object_is_visited :
    globalObjectProject.resourcesManager.resources = [] ∧ globalObjectProject.layouts = [] ∧
      (globalObjectProject.ExposeResources identityWorker
        { state := (), visits := [] }).2.visits = ["hero.png"] := by
  decide

/-- C9, amended. For every project with zero resources in its registry and
zero layouts, the calls `ExposeResources` makes to the visitor are those for
the event trees of its external event sheets followed by those for its global
objects; it makes zero calls exactly when these expose no reference, in
particular when the project has also zero external event sheets and zero
global objects. -/
theorem ExposeResources_no_resource_no_layout {σ : Type} (p : Project)
    (worker : ArbitraryResourceWorker σ) (s : σ)
    (hres : p.resourcesManager.resources = []) (hlay : p.layouts = []) :
    (p.ExposeResources worker { state := s, visits := [] }).2.visits =
        externalEventsVisits p.externalEvents ++ objectsVisits p.objects ∧
    ((p.ExposeResources worker { state := s, visits := [] }).2.visits = [] ↔
      externalEventsVisits p.externalEvents = [] ∧ objectsVisits p.objects = []) ∧
    (p.externalEvents = [] → p.objects = [] →
      (p.ExposeResources worker { state := s, visits := [] }).2.visits = []) := by
  have hnd : p.resourcesManager.GetAllResourcesList.Nodup := by
    simp [ResourcesManager.GetAllResourcesList, hres]
  have h : (p.ExposeResources worker { state := s, visits := [] }).2.visits =
      externalEventsVisits p.externalEvents ++ objectsVisits p.objects := by
    rw [ExposeResources_visits p worker _ hnd]
    simp [registryVisits, hres, hlay, layoutsVisits]
  refine ⟨h, ?_, ?_⟩
  · rw [h, List.append_eq_nil]
  · intro hext hobj
    rw [h, hext, hobj]
    rfl

/-- Witness of C9, amended: `blankProject` owns nothing and is not visited. -/
theorem ExposeResources_no_resource_no_layout_witness :
    (blankProject.ExposeResources identityWorker { state := (), visits := [] }).2.visits = [] :=
  (ExposeResources_no_resource_no_layout blankProject identityWorker () rfl rfl).2.2 rfl rfl


/-! ## Theorems on the property grid -/

theorem toLong_emod (longBits : Nat) (hlong : 32 ≤ longBits) (x : Int) :
    toLong longBits x % 2 ^ 32 = x % 2 ^ 32 := by
  have hdvd : (2 : Int) ^ 32 ∣ 2 ^ longBits := pow_dvd_pow 2 hlong
  unfold toLong
  rw [Int.sub_emod, Int.emod_emod_of_dvd _ hdvd, ← Int.sub_emod, add_sub_cancel_right]

theorem toUnsignedInt_toLong (longBits : Nat) (hlong : 32 ≤ longBits) (v : Nat)
    (hv : v < 2 ^ 32) : toUnsignedInt (toLong longBits v) = v := by
  unfold toUnsignedInt
  rw [toLong_emod longBits hlong]
  omega

theorem toInt_toLong (longBits : Nat) (hlong : 32 ≤ longBits) (m : Int)
    (hlo : -2 ^ 31 ≤ m) (hhi : m < 2 ^ 31) : toInt (toLong longBits m) = m := by
  unfold toInt
  rw [Int.add_emod, toLong_emod longBits hlong, ← Int.add_emod]
  omega

theorem toInt_neg_one : toInt (-1) = -1 := by
  decide



theorem changeProperty_cons_ne (name : String) (f : wxPGProperty → wxPGProperty)
    (property : wxPGProperty) (rest : List wxPGProperty) (h : property.name ≠ name) :
    changeProperty name f (property :: rest) = property :: changeProperty name f rest := by
  simp [changeProperty, h]

theorem changeProperty_cons_eq (name : String) (f : wxPGProperty → wxPGProperty)
    (property : wxPGProperty) (rest : List wxPGProperty) (h : property.name = name) :
    changeProperty name f (property :: rest) = f property :: rest := by
  simp [changeProperty, h]

theorem PopulatePropertyGrid_empty (p : Project) (longBits : Nat) :
    p.PopulatePropertyGrid longBits wxPropertyGrid.empty =
      { properties :=
        [new_wxPropertyCategory "Properties",
         new_wxStringProperty "Name of the project" p.name,
         new_wxStringProperty "Author" p.author,
         { new_wxStringProperty "Globals variables" "Click to edit..." with
           cell := some "Click to edit...", readOnly := true },
         { new_wxStringProperty "Extensions" "Click to edit..." with
           cell := some "Click to edit...", readOnly := true },
         new_wxPropertyCategory "Game's window",
         new_wxUIntProperty longBits "Width" p.mainWindowDefaultWidth,
         new_wxUIntProperty longBits "Height" p.mainWindowDefaultHeight,
         new_wxBoolProperty "Vertical Synchronization" p.verticalSynchronizationEnabledByDefault,
         new_wxBoolProperty "Limit the framerate" (p.maximumFPS != -1),
         (if p.maximumFPS = -1 then
           { new_wxIntProperty longBits "Maximum FPS" p.maximumFPS with
             enabled := false, value := .string "" }
          else new_wxIntProperty longBits "Maximum FPS" p.maximumFPS),
         new_wxUIntProperty longBits "Minimum FPS" p.minimumFPS] } := by
  unfold Project.PopulatePropertyGrid
  simp only [wxPropertyGrid.empty, wxPropertyGrid.Append, List.nil_append, List.cons_append,
    List.singleton_append]
  simp only [wxPropertyGrid.SetPropertyCell, wxPropertyGrid.SetPropertyReadOnly,
    wxPropertyGrid.Enable, wxPropertyGrid.SetValue]
  simp only [new_wxPropertyCategory, new_wxStringProperty,
      new_wxUIntProperty, new_wxIntProperty, new_wxBoolProperty]
  by_cases h : p.maximumFPS = -1
  · rw [if_pos h, if_pos (by simpa using h)]
    simp [changeProperty_cons_ne, changeProperty_cons_eq]
  · rw [if_neg h, if_neg (by simpa using h)]
    simp [changeProperty_cons_ne, changeProperty_cons_eq]


theorem ext_Project (p : Project) :
    ({ name := p.name, author := p.author,
       mainWindowDefaultWidth := p.mainWindowDefaultWidth,
       mainWindowDefaultHeight := p.mainWindowDefaultHeight,
       verticalSynchronizationEnabledByDefault := p.verticalSynchronizationEnabledByDefault,
       maximumFPS := p.maximumFPS, minimumFPS := p.minimumFPS,
       globalVariables := p.globalVariables,
       usedPlatformExtensions := p.usedPlatformExtensions,
       resourcesManager := p.resourcesManager, layouts := p.layouts,
       externalEvents := p.externalEvents, objects := p.objects, platform := p.platform,
       projectFile := p.projectFile } : Project) = p := rfl

theorem UpdateFromPropertyGrid_PopulatePropertyGrid (p : Project) (longBits : Nat)
    (hlong : 32 ≤ longBits) (hrange : p.InRange) :
    p.UpdateFromPropertyGrid (p.PopulatePropertyGrid longBits wxPropertyGrid.empty) = p := by
  obtain ⟨hw, hh, hmin, hlo, hhi⟩ := hrange
  rw [PopulatePropertyGrid_empty]
  unfold Project.UpdateFromPropertyGrid Project.updateMaximumFPS
  simp only [wxPropertyGrid.GetProperty, new_wxPropertyCategory, new_wxStringProperty,
      new_wxUIntProperty, new_wxIntProperty, new_wxBoolProperty]
  by_cases h : p.maximumFPS = -1
  · simp [List.find?_cons, h, wxPGProperty.GetValueAsString, wxVariant.GetInteger,
      wxVariant.GetBool, Project.SetName, Project.SetAuthor, Project.SetMainWindowDefaultWidth,
      Project.SetMainWindowDefaultHeight, Project.SetVerticalSyncActivatedByDefault,
      Project.SetMaximumFPS, Project.SetMinimumFPS, toUnsignedInt_toLong longBits hlong _ hw,
      toUnsignedInt_toLong longBits hlong _ hh, toUnsignedInt_toLong longBits hlong _ hmin,
      toInt_neg_one]
    have hp := ext_Project p
    rw [h] at hp
    exact hp
  · simp [List.find?_cons, h, wxPGProperty.GetValueAsString, wxVariant.GetInteger,
      wxVariant.GetBool, Project.SetName, Project.SetAuthor, Project.SetMainWindowDefaultWidth,
      Project.SetMainWindowDefaultHeight, Project.SetVerticalSyncActivatedByDefault,
      Project.SetMaximumFPS, Project.SetMinimumFPS, toUnsignedInt_toLong longBits hlong _ hw,
      toUnsignedInt_toLong longBits hlong _ hh, toUnsignedInt_toLong longBits hlong _ hmin,
      toInt_toLong longBits hlong _ hlo hhi]

theorem PopulatePropertyGrid_unlimited (p : Project) (longBits : Nat)
    (h : p.maximumFPS = -1) :
    (p.PopulatePropertyGrid longBits wxPropertyGrid.empty).GetProperty "Limit the framerate" =
        some (new_wxBoolProperty "Limit the framerate" false) ∧
    (p.PopulatePropertyGrid longBits wxPropertyGrid.empty).GetProperty "Maximum FPS" =
        some { name := "Maximum FPS", kind := .wxIntProperty, value := .string "",
               enabled := false, readOnly := false, cell := none } := by
  rw [PopulatePropertyGrid_empty]
  simp only [wxPropertyGrid.GetProperty, new_wxPropertyCategory, new_wxStringProperty,
      new_wxUIntProperty, new_wxIntProperty, new_wxBoolProperty]
  simp [List.find?_cons, h]

/-- C10. Property-grid round trip. For every project whose numeric fields
lie in the ranges of their C++ types, and a `long` of at least 32 bits:
filling an empty property grid with `PopulatePropertyGrid` and calling
`UpdateFromPropertyGrid` on that unedited grid gives the project back
unchanged, so that its name, author, window default width and height, vsync
flag, minimum FPS and maximum FPS are unchanged. When the maximum FPS is `-1`
the property `Limit the framerate` is unchecked, the property `Maximum FPS`
is disabled and holds the blank text, whose integer value is `0`, and the
update writes `-1` back. -/
theorem PropertyGrid_round_trip (p : Project) (longBits : Nat) (hlong : 32 ≤ longBits)
    (hrange : p.InRange) :
    p.UpdateFromPropertyGrid (p.PopulatePropertyGrid longBits wxPropertyGrid.empty) = p ∧
    (p.maximumFPS = -1 →
      ((p.PopulatePropertyGrid longBits wxPropertyGrid.empty).GetProperty
          "Limit the framerate").map (fun property => property.value) = some (.bool false) ∧
      ((p.PopulatePropertyGrid longBits wxPropertyGrid.empty).GetProperty
          "Maximum FPS").map (fun property => property.enabled) = some false ∧
      ((p.PopulatePropertyGrid longBits wxPropertyGrid.empty).GetProperty
          "Maximum FPS").map (fun property => property.value) = some (.string "") ∧
      ((p.PopulatePropertyGrid longBits wxPropertyGrid.empty).GetProperty
          "Maximum FPS").map (fun property => toInt property.value.GetInteger) = some 0 ∧
      (p.UpdateFromPropertyGrid
          (p.PopulatePropertyGrid longBits wxPropertyGrid.empty)).maximumFPS = -1) := by
  have hround := UpdateFromPropertyGrid_PopulatePropertyGrid p longBits hlong hrange
  refine ⟨hround, fun h => ?_⟩
  obtain ⟨hlimit, hmax⟩ := PopulatePropertyGrid_unlimited p longBits h
  rw [hlimit, hmax, hround]
  exact ⟨rfl, rfl, rfl, by decide, h⟩

/-- Witness of C10: `unlimitedProject`, whose maximum FPS is `-1`, with a
`long` of 32 bits. -/
theorem PropertyGrid_round_trip_witness :
    unlimitedProject.UpdateFromPropertyGrid
        (unlimitedProject.PopulatePropertyGrid 32 wxPropertyGrid.empty) = unlimitedProject ∧
    (unlimitedProject.UpdateFromPropertyGrid
        (unlimitedProject.PopulatePropertyGrid 32 wxPropertyGrid.empty)).maximumFPS = -1 :=
  have h := PropertyGrid_round_trip unlimitedProject 32 (by decide)
    (by unfold Project.InRange; decide)
  ⟨h.1, (h.2 rfl).2.2.2.2⟩


/-! ## Theorems on `LoadFromFile` -/

/-- C4. For every project and every path whose document cannot be loaded,
`LoadFromFile` returns `false`, makes no call to `LoadFromXml` and leaves the
project as it was, its recorded project file included. When the document
loads, `LoadFromFile` returns `true` and the project is what `LoadFromXml`
makes, from the first child element of the document, of the project with its
project file set to the path. So the project file is set, and `LoadFromXml`
is called, only when the document loads. -/
theorem LoadFromFile_failure (p : Project) (fs : FileSystem)
    (LoadFromXml : Project → Option TiXmlElement → Project) (filename : String) :
    (∀ errorDesc : String, fs.LoadFile filename = .error errorDesc →
      (p.LoadFromFile fs LoadFromXml filename).returned = false ∧
      (p.LoadFromFile fs LoadFromXml filename).project = p ∧
      (p.LoadFromFile fs LoadFromXml filename).project.projectFile = p.projectFile ∧
      (p.LoadFromFile fs LoadFromXml filename).loadFromXmlCalls = []) ∧
    (∀ doc : TiXmlDocument, fs.LoadFile filename = .ok doc →
      (p.LoadFromFile fs LoadFromXml filename).returned = true ∧
      (p.LoadFromFile fs LoadFromXml filename).project =
        LoadFromXml (p.SetProjectFile filename) doc.FirstChildElement ∧
      (p.LoadFromFile fs LoadFromXml filename).loadFromXmlCalls = [doc.FirstChildElement]) ∧
    ((p.LoadFromFile fs LoadFromXml filename).loadFromXmlCalls ≠ [] →
      ∃ doc : TiXmlDocument, fs.LoadFile filename = .ok doc) := by
  refine ⟨?_, ?_, ?_⟩
  · intro errorDesc h
    simp [Project.LoadFromFile, h]
  · intro doc h
    simp [Project.LoadFromFile, h]
  · intro hcalls
    cases h : fs.LoadFile filename with
    | error errorDesc => simp [Project.LoadFromFile, h] at hcalls
    | ok doc => exact ⟨doc, rfl⟩

/-- Witness of C4: loading the missing file `missing.gdg` into
`sampleProject`. -/
theorem LoadFromFile_failure_witness :
    (sampleProject.LoadFromFile sampleFiles sampleLoadFromXml "missing.gdg").returned = false ∧
    (sampleProject.LoadFromFile sampleFiles sampleLoadFromXml "missing.gdg").project =
      sampleProject :=
  have h := (LoadFromFile_failure sampleProject sampleFiles sampleLoadFromXml "missing.gdg").1
    "Failed to open file" (by simp [sampleFiles])
  ⟨h.1, h.2.1⟩


/-! ## Theorems on the document format -/

theorem digitChar_isDigit (d : Nat) (h : d < 10) : (Nat.digitChar d).isDigit = true := by
  interval_cases d <;> decide

theorem digitValue_digitChar (d : Nat) (h : d < 10) : digitValue (Nat.digitChar d) = d := by
  interval_cases d <;> decide

theorem digitChar_ne_minus (d : Nat) (h : d < 10) : Nat.digitChar d ≠ '-' := by
  interval_cases d <;> decide

theorem map_digitValue_digitChar (l : List Nat) (h : ∀ d ∈ l, d < 10) :
    (l.map Nat.digitChar).map digitValue = l := by
  induction l with
  | nil => rfl
  | cons d rest ih =>
    simp only [List.map_cons, digitValue_digitChar d (h d (List.mem_cons_self _ _)),
      ih (fun x hx => h x (List.mem_cons_of_mem _ hx))]

theorem printNat_data (n : Nat) :
    ∃ l : List Nat, l ≠ [] ∧ (∀ d ∈ l, d < 10) ∧ Nat.ofDigits 10 l = n ∧
      (printNat n).data = l.reverse.map Nat.digitChar := by
  by_cases h : n = 0
  · subst h
    exact ⟨[0], by simp, by simp, by simp [Nat.ofDigits], by simp [printNat]; rfl⟩
  · refine ⟨Nat.digits 10 n, Nat.digits_ne_nil_iff_ne_zero.2 h,
      fun d hd => Nat.digits_lt_base (by norm_num) hd, Nat.ofDigits_digits 10 n, ?_⟩
    simp [printNat, h]

theorem parseNat_printNat (n : Nat) : parseNat (printNat n) = some n := by
  obtain ⟨l, hne, hlt, hof, hdata⟩ := printNat_data n
  unfold parseNat
  rw [hdata]
  have hne' : l.reverse.map Nat.digitChar ≠ [] := by
    simpa using hne
  have hall : (l.reverse.map Nat.digitChar).all Char.isDigit = true := by
    rw [List.all_eq_true]
    intro c hc
    obtain ⟨d, hd, rfl⟩ := List.mem_map.1 hc
    exact digitChar_isDigit d (hlt d (List.mem_reverse.1 hd))
  rw [if_pos ⟨hne', hall⟩, ← List.map_reverse, List.reverse_reverse,
    map_digitValue_digitChar l hlt, hof]


theorem printNat_head (n : Nat) :
    ∃ c rest, (printNat n).data = c :: rest ∧ c ≠ '-' := by
  obtain ⟨l, hne, hlt, _, hdata⟩ := printNat_data n
  rw [hdata]
  cases hrev : l.reverse with
  | nil => exact absurd (List.reverse_eq_nil_iff.1 hrev) hne
  | cons d rest =>
    refine ⟨Nat.digitChar d, rest.map Nat.digitChar, rfl, ?_⟩
    have hd : d ∈ l := List.mem_reverse.1 (hrev ▸ List.mem_cons_self d rest)
    exact digitChar_ne_minus d (hlt d hd)

theorem parseInt_printInt (m : Int) : parseInt (printInt m) = some m := by
  unfold printInt
  by_cases h : m < 0
  · rw [if_pos h]
    simp only [parseInt]
    have hmk : String.mk (printNat m.natAbs).data = printNat m.natAbs := rfl
    rw [hmk, parseNat_printNat]
    simp only [Option.map_some', Option.some.injEq, Int.ofNat_eq_coe]
    omega
  · rw [if_neg h]
    obtain ⟨c, rest, hdata, hc⟩ := printNat_head m.natAbs
    have hparse : parseInt (printNat m.natAbs) =
        (parseNat (printNat m.natAbs)).map Int.ofNat := by
      unfold parseInt
      split
      · rename_i heq
        rw [hdata] at heq
        exact absurd (List.cons.inj heq).1 hc
      · rfl
    rw [hparse, parseNat_printNat]
    simp only [Option.map_some', Option.some.injEq, Int.ofNat_eq_coe]
    omega

theorem parseBool_printBool (b : Bool) : parseBool (printBool b) = some b := by
  cases b <;> decide

theorem filterMap_map_of_left_inverse {α β : Type} (f : α → β) (g : β → Option α)
    (h : ∀ a, g (f a) = some a) (l : List α) : (l.map f).filterMap g = l := by
  induction l with
  | nil => rfl
  | cons a rest ih => rw [List.map_cons, List.filterMap_cons, h a, ih]

theorem loadStrings_saveStrings (tag : String) (l : List String) :
    loadStrings (saveStrings tag l) = l :=
  filterMap_map_of_left_inverse _ _ (fun _ => by simp [TiXmlElement.Attribute,
    TiXmlElement.attributes, List.lookup]) l

theorem Resource_LoadFromXml_SaveToXml (r : Resource) :
    Resource.LoadFromXml r.SaveToXml = some r := by
  simp [Resource.LoadFromXml, Resource.SaveToXml, TiXmlElement.Attribute,
    TiXmlElement.attributes, List.lookup, parseBool_printBool]

theorem Object_LoadFromXml_SaveToXml (o : Object) :
    Object.LoadFromXml o.SaveToXml = some o := by
  simp [Object.LoadFromXml, Object.SaveToXml, TiXmlElement.Attribute,
    TiXmlElement.attributes, TiXmlElement.children, List.lookup, loadStrings_saveStrings]

theorem Events_LoadFromXml_SaveToXml (e : Events) :
    Events.LoadFromXml e.SaveToXml = e := by
  simp [Events.LoadFromXml, Events.SaveToXml, TiXmlElement.children, loadStrings_saveStrings]

theorem Layout_LoadFromXml_SaveToXml (l : Layout) :
    Layout.LoadFromXml l.SaveToXml = some l := by
  simp [Layout.LoadFromXml, Layout.SaveToXml, TiXmlElement.Attribute,
    TiXmlElement.attributes, TiXmlElement.children, TiXmlElement.FirstChildElement,
    TiXmlElement.Value, List.lookup, List.find?, Events.SaveToXml, Events.LoadFromXml,
    loadStrings_saveStrings,
    filterMap_map_of_left_inverse _ _ Object_LoadFromXml_SaveToXml]

theorem ExternalEvents_LoadFromXml_SaveToXml (e : ExternalEvents) :
    ExternalEvents.LoadFromXml e.SaveToXml = some e := by
  simp [ExternalEvents.LoadFromXml, ExternalEvents.SaveToXml, TiXmlElement.Attribute,
    TiXmlElement.attributes, TiXmlElement.children, TiXmlElement.FirstChildElement,
    TiXmlElement.Value, List.lookup, List.find?, Events.SaveToXml, Events.LoadFromXml,
    loadStrings_saveStrings]

theorem loadVariable_saveVariable (v : String × String) :
    loadVariable (saveVariable v) = some v := by
  simp [loadVariable, saveVariable, TiXmlElement.Attribute, TiXmlElement.attributes,
    List.lookup]


theorem SaveToXml_new_element (P : Project) :
    P.SaveToXml (new_TiXmlElement "Project") =
      .mk "Project"
        [("name", P.name), ("author", P.author), ("width", printNat P.mainWindowDefaultWidth),
         ("height", printNat P.mainWindowDefaultHeight),
         ("verticalSync", printBool P.verticalSynchronizationEnabledByDefault),
         ("maxFPS", printInt P.maximumFPS), ("minFPS", printNat P.minimumFPS)]
        [.mk "Resources" [] (P.resourcesManager.resources.map Resource.SaveToXml),
         .mk "Layouts" [] (P.layouts.map Layout.SaveToXml),
         .mk "ExternalEventsList" [] (P.externalEvents.map ExternalEvents.SaveToXml),
         .mk "Objects" [] (P.objects.map Object.SaveToXml),
         .mk "Variables" [] (P.globalVariables.map saveVariable),
         .mk "Extensions" [] (saveStrings "Extension" P.usedPlatformExtensions)] := by
  simp [Project.SaveToXml, new_TiXmlElement, TiXmlElement.SetAttribute,
    TiXmlElement.LinkEndChild, TiXmlElement.Value, TiXmlElement.attributes,
    TiXmlElement.children, setAttribute]

theorem LoadFromXml_SaveToXml (P fresh : Project) :
    fresh.LoadFromXml (some (P.SaveToXml (new_TiXmlElement "Project"))) =
      { P with platform := fresh.platform, projectFile := fresh.projectFile } := by
  rw [SaveToXml_new_element]
  simp [Project.LoadFromXml, loadField, TiXmlElement.Attribute, TiXmlElement.attributes,
    TiXmlElement.children, TiXmlElement.FirstChildElement, TiXmlElement.Value, List.lookup,
    List.find?, parseNat_printNat, parseInt_printInt, parseBool_printBool,
    loadStrings_saveStrings,
    filterMap_map_of_left_inverse _ _ Resource_LoadFromXml_SaveToXml,
    filterMap_map_of_left_inverse _ _ Layout_LoadFromXml_SaveToXml,
    filterMap_map_of_left_inverse _ _ ExternalEvents_LoadFromXml_SaveToXml,
    filterMap_map_of_left_inverse _ _ Object_LoadFromXml_SaveToXml,
    filterMap_map_of_left_inverse _ _ loadVariable_saveVariable]


theorem SaveToFile_returned (P : Project) (fs : FileSystem)
    (SaveToXml : Project → TiXmlElement → TiXmlElement) (path : String) :
    (P.SaveToFile fs SaveToXml path).returned = fs.writable path := by
  unfold Project.SaveToFile FileSystem.SaveFile
  cases fs.writable path <;> simp

theorem SaveToFile_LoadFile (P : Project) (fs : FileSystem)
    (SaveToXml : Project → TiXmlElement → TiXmlElement) (path : String)
    (h : fs.writable path = true) :
    (P.SaveToFile fs SaveToXml path).files.LoadFile path =
      .ok { children := [.declaration "1.0" "ISO-8859-1" "",
                         .element (SaveToXml P (new_TiXmlElement "Project"))] } := by
  simp [Project.SaveToFile, FileSystem.SaveFile, h, TiXmlDocument.LinkEndChild]

/-- C3. Round trip, with the document format modelled from the spec. For
every project `P`, every project `fresh` and every path: if `P.SaveToFile`
succeeds, then `fresh.LoadFromFile` on the same path succeeds and yields `P`
with the project file set to the path and the platform reference of `fresh`:
the name, author, window sizes, vsync flag, minimum and maximum FPS, and the
layouts, external event sheets, global objects, resources, variables and used
extensions are those of `P`, in the same order. -/
theorem SaveToFile_LoadFromFile (P fresh : Project) (fs : FileSystem) (path : String)
    (hsave : (P.SaveToFile fs Project.SaveToXml path).returned = true) :
    (fresh.LoadFromFile (P.SaveToFile fs Project.SaveToXml path).files
        Project.LoadFromXml path).returned = true ∧
    (fresh.LoadFromFile (P.SaveToFile fs Project.SaveToXml path).files
        Project.LoadFromXml path).project =
      { P with platform := fresh.platform, projectFile := path } := by
  rw [SaveToFile_returned] at hsave
  have hload := SaveToFile_LoadFile P fs Project.SaveToXml path hsave
  unfold Project.LoadFromFile
  rw [hload]
  simp only [TiXmlDocument.FirstChildElement, firstElement, LoadFromXml_SaveToXml,
    Project.SetProjectFile, and_self]

/-- Witness of C3: `sampleProject` saved to `game.gdg` and loaded into
`blankProject`. -/
theorem SaveToFile_LoadFromFile_witness :
    (blankProject.LoadFromFile
        (sampleProject.SaveToFile sampleFiles Project.SaveToXml "game.gdg").files
        Project.LoadFromXml "game.gdg").project =
      { sampleProject with platform := blankProject.platform, projectFile := "game.gdg" } :=
  (SaveToFile_LoadFromFile sampleProject blankProject sampleFiles "game.gdg"
    (by simp [SaveToFile_returned, sampleFiles])).2

end gd
